import Mathlib

/-!
Verification of the list-synchronization engine of the Python-Sharepoint-Connector
repository, as a shallow embedding in Lean 4.

Python values appearing as list-item fields are modelled by the `Value` type
(strings, ints, floats as rationals, None, and lists of filenames).  Python
dicts are modelled as association lists with insertion-order semantics
(`pyget` / `pyset`), and Python exceptions by `Except PyErr`.

Modelling notes, stated once here:
* Python floats are modelled as rationals; the decimal literals exercised in
  this development are all exactly representable.
* Python `datetime.fromisoformat` is modelled on canonical zero-padded
  ISO-8601 strings (`YYYY-MM-DD`, optionally followed by `T` or a space and
  `HH:MM:SS`); on this domain `datetime` comparison coincides with the
  character-wise comparison implemented by `chronoLt`.  Calendar-range
  validation (month at most 12, and so on) is not modelled; all timestamps
  used in theorems are calendar-valid.
* Python cross-type numeric equality (`1 == 1.0`) is not modelled; no claim
  exercises it.
* Network traffic is modelled by scripted responses (paginated reads) and by
  explicit event traces (digest fetches and writes).
-/

/-- Python runtime errors that the modelled code can raise. -/
inductive PyErr where
  | keyError
  | valueError
  | typeError
  | attributeError
deriving DecidableEq, Repr

/-- A Python value as it appears in a list-item field. -/
inductive Value where
  | none
  | int (n : Int)
  | float (q : Rat)
  | str (s : String)
  | list (vs : List String)
deriving DecidableEq, Repr

/-- A Python dict with string keys, as an insertion-ordered association list. -/
abbrev PyDict (β : Type) := List (String × β)

/-- A list item: a dict mapping field names to values. -/
abbrev Item := PyDict Value

/-- The inner dict of a column entry (keys `Internal Name` and `Data Type`). -/
abbrev ColEntry := PyDict String

/-- The dict produced by the schema-introspection functions: display name to
column entry. -/
abbrev ColDict := PyDict ColEntry

/-- Dict lookup, `d.get(k)`: the binding for `k`, if any. -/
def pyget {β : Type} (d : PyDict β) (k : String) : Option β :=
  (d.find? (fun kv => kv.1 = k)).map (fun kv => kv.2)

/-- Dict assignment `d[k] = v`: replace in place, or append a new binding. -/
def pyset {β : Type} (d : PyDict β) (k : String) (v : β) : PyDict β :=
  if d.any (fun kv => kv.1 = k) then
    d.map (fun kv => if kv.1 = k then (k, v) else kv)
  else
    d ++ [(k, v)]

/-- Dict merge `d.update(e)`: assign every binding of `e` into `d` in order. -/
def pyUpdate {β : Type} (d e : PyDict β) : PyDict β :=
  e.foldl (fun acc kv => pyset acc kv.1 kv.2) d

/-- Dict membership `k in d`. -/
def pyMem {β : Type} (d : PyDict β) (k : String) : Bool :=
  d.any (fun kv => kv.1 = k)

/-- Turn an optional lookup into a Python `KeyError`-style result. -/
def ofOpt {β : Type} (e : PyErr) : Option β → Except PyErr β
  | Option.some v => Except.ok v
  | Option.none => Except.error e

/-- Python truthiness of a `Value`. -/
def truthy : Value → Bool
  | Value.none => false
  | Value.int n => n != 0
  | Value.float q => q != 0
  | Value.str s => s != ""
  | Value.list vs => !vs.isEmpty

/-- Digit run to a natural number. -/
def digitsToNat (cs : List Char) : Nat :=
  cs.foldl (fun a c => a * 10 + (c.toNat - 48)) 0

/-- Nonempty all-digit character run. -/
def isDigitRun (cs : List Char) : Bool :=
  !cs.isEmpty && cs.all Char.isDigit

/-- The strings accepted by Python `int()` : optional sign then digits. -/
def parseIntStr (s : String) : Option Int :=
  match s.toList with
  | '-' :: rest =>
      if isDigitRun rest then Option.some (-(digitsToNat rest : Int)) else Option.none
  | '+' :: rest =>
      if isDigitRun rest then Option.some (digitsToNat rest : Int) else Option.none
  | cs =>
      if isDigitRun cs then Option.some (digitsToNat cs : Int) else Option.none

/-- Unsigned decimal literal accepted by Python `float()`: digits, optionally
a dot and digits, at least one digit overall. -/
def parseUnsignedFloat (cs : List Char) : Option Rat :=
  let intPart := cs.takeWhile (fun c => c != '.')
  match cs.dropWhile (fun c => c != '.') with
  | [] => if isDigitRun intPart then Option.some ((digitsToNat intPart : Int) : Rat) else Option.none
  | '.' :: frac =>
      if (intPart.all Char.isDigit) && (frac.all Char.isDigit) && !(intPart.isEmpty && frac.isEmpty) then
        Option.some ((digitsToNat intPart : Rat) + (digitsToNat frac : Rat) / ((10 : Rat) ^ frac.length))
      else Option.none
  | _ => Option.none

/-- The strings accepted by Python `float()` (decimal forms). -/
def parseFloatStr (s : String) : Option Rat :=
  match s.toList with
  | '-' :: rest => (parseUnsignedFloat rest).map (fun q => -q)
  | '+' :: rest => parseUnsignedFloat rest
  | cs => parseUnsignedFloat cs

/-- Truncation toward zero, as Python `int()` does on floats. -/
def ratTrunc (q : Rat) : Int :=
  if q ≥ 0 then q.floor else q.ceil

/-- Python builtin `int(value)`. -/
def pyInt : Value → Except PyErr Value
  | Value.int n => Except.ok (Value.int n)
  | Value.float q => Except.ok (Value.int (ratTrunc q))
  | Value.str s =>
      match parseIntStr s with
      | Option.some n => Except.ok (Value.int n)
      | Option.none => Except.error PyErr.valueError
  | Value.none => Except.error PyErr.typeError
  | Value.list _ => Except.error PyErr.typeError

/-- Python builtin `float(value)`. -/
def pyFloat : Value → Except PyErr Value
  | Value.int n => Except.ok (Value.float (n : Rat))
  | Value.float q => Except.ok (Value.float q)
  | Value.str s =>
      match parseFloatStr s with
      | Option.some q => Except.ok (Value.float q)
      | Option.none => Except.error PyErr.valueError
  | Value.none => Except.error PyErr.typeError
  | Value.list _ => Except.error PyErr.typeError

/-- Python builtin `str(value)` (rendering of floats and lists is schematic;
no theorem depends on it). -/
def pyStr : Value → Value
  | Value.str s => Value.str s
  | Value.int n => Value.str (toString n)
  | Value.none => Value.str "None"
  | Value.float q => Value.str (toString q)
  | Value.list vs => Value.str (String.intercalate ", " vs)

/-- Lower-case a string (Python `str.lower` on ASCII). -/
def lowerStr (s : String) : String :=
  String.mk (s.toList.map Char.toLower)

/-- Substring test on character lists. -/
def containsSub (hay pat : List Char) : Bool :=
  match hay with
  | [] => pat.isEmpty
  | _ :: t => pat.isPrefixOf hay || containsSub t pat

/-- The sync-eligibility test of `Utils.get_list_diff`: the lower-cased
customer name contains the substring kpmg. -/
def hasKpmg (s : String) : Bool :=
  containsSub (lowerStr s).toList "kpmg".toList

/-- `utils.tools.str_to_bool` applied to a field value: `.lower()` raises
`AttributeError` on non-strings. -/
def strToBool : Value → Except PyErr Bool
  | Value.str s => Except.ok (decide (lowerStr s ∈ ["true", "1", "yes", "y"]))
  | _ => Except.error PyErr.attributeError

/-- Shape check for the canonical ISO-8601 timestamps modelled here. -/
def isoShape (s : String) : Bool :=
  match s.toList with
  | [y1, y2, y3, y4, h1, m1, m2, h2, d1, d2] =>
      [y1, y2, y3, y4, m1, m2, d1, d2].all Char.isDigit && h1 == '-' && h2 == '-'
  | [y1, y2, y3, y4, h1, m1, m2, h2, d1, d2, sep, a1, a2, c1, b1, b2, c2, e1, e2] =>
      [y1, y2, y3, y4, m1, m2, d1, d2, a1, a2, b1, b2, e1, e2].all Char.isDigit &&
      h1 == '-' && h2 == '-' && (sep == 'T' || sep == ' ') && c1 == ':' && c2 == ':'
  | _ => false

/-- Model of `datetime.fromisoformat(value)`: accepts canonical ISO strings,
`ValueError` on other strings, `TypeError` on non-strings.  The parsed
datetime is represented by the string itself. -/
def fromIso : Value → Except PyErr String
  | Value.str s => if isoShape s then Except.ok s else Except.error PyErr.valueError
  | _ => Except.error PyErr.typeError

/-- Pad a date-only ISO string to midnight so mixed comparisons align. -/
def isoKey (s : String) : String :=
  if s.length = 10 then s ++ "T00:00:00" else s

/-- Code-point lexicographic order on character lists. -/
def charListLt : List Char → List Char → Bool
  | [], [] => false
  | [], _ :: _ => true
  | _ :: _, [] => false
  | a :: as, b :: bs =>
      if a.toNat < b.toNat then true
      else if b.toNat < a.toNat then false
      else charListLt as bs

/-- Chronological order of two modelled datetimes (strict less-than). -/
def chronoLt (a b : String) : Bool :=
  charListLt (isoKey a).toList (isoKey b).toList

/-! ## Type coercion: `Utils.prepare_data` (src/utils/methods.py) -/

/-- Coercion applied by `Utils.prepare_data` according to the declared data
type.  For `Number` the source guard
`not isinstance(value, int) or not isinstance(value, float)` is always true
(no value is both an int and a float), so `int(value)` runs unconditionally. -/
def coerceUtils (dataType : String) (value : Value) : Except PyErr Value :=
  if dataType = "Text" then
    Except.ok (match value with
      | Value.str s => Value.str s
      | v => pyStr v)
  else if dataType = "Number" then
    pyInt value
  else
    Except.ok value

/-- One iteration of the field loop of `Utils.prepare_data`: which binding it
adds to `insert_item`, if any, or the exception it raises.  Mirrors the
source order: special keys are copied verbatim, falsy values and `Modified`
are skipped, otherwise the column entry is looked up (`KeyError` when
missing) and the value coerced. -/
def fieldEval (cols : ColDict) (key : String) (value : Value) :
    Except PyErr (Option (String × Value)) :=
  if key = "Attachment List" ∨ key = "Id" ∨ key = "Attachments" then
    Except.ok (Option.some (key, value))
  else if truthy value then
    if key = "Modified" then Except.ok Option.none
    else do
      let inner ← ofOpt PyErr.keyError (pyget cols key)
      let dataType ← ofOpt PyErr.keyError (pyget inner "Data Type")
      let internalName ← ofOpt PyErr.keyError (pyget inner "Internal Name")
      let v ← coerceUtils dataType value
      Except.ok (Option.some (internalName, v))
  else
    Except.ok Option.none

/-- The field loop of `Utils.prepare_data` with its enclosing
`try ... except`: a raised exception stops the loop and the accumulated
partial item is returned. -/
def prepareDataAux (cols : ColDict) : List (String × Value) → Item → Item
  | [], acc => acc
  | (k, v) :: rest, acc =>
      match fieldEval cols k v with
      | Except.ok (Option.some (i, w)) => prepareDataAux cols rest (pyset acc i w)
      | Except.ok Option.none => prepareDataAux cols rest acc
      | Except.error _ => acc

/-- `Utils.prepare_data(item_dict, required_col_dict)`. -/
def prepareData (item : Item) (cols : ColDict) : Item :=
  prepareDataAux cols item []

/-! ## Type coercion: `List.prepare_data` (src/sharepoint/list/list.py) -/

/-- One field of `List.prepare_data`.  `Number` tries `float(value)` and only
`ValueError` is caught (turned into `None`); a `TypeError` — raised for
example by `float(None)` — propagates.  Bindings are added only for values
that are not `None`. -/
def listFieldEval (fieldDict : ColDict) (key : String) (value : Value) :
    Except PyErr (Option (String × Value)) := do
  let inner ← ofOpt PyErr.keyError (pyget fieldDict key)
  let dataType ← ofOpt PyErr.keyError (pyget inner "Data Type")
  let internalName ← ofOpt PyErr.keyError (pyget inner "Internal Name")
  let v ←
    if dataType = "Text" then
      Except.ok (match value with
        | Value.str s => Value.str s
        | w => pyStr w)
    else if dataType = "Number" then
      match pyFloat value with
      | Except.ok w => Except.ok w
      | Except.error PyErr.valueError => Except.ok Value.none
      | Except.error e => Except.error e
    else
      Except.ok value
  if v = Value.none then Except.ok Option.none
  else Except.ok (Option.some (internalName, v))

/-- The inner loop of `List.prepare_data` over one item (no `try` around it:
exceptions propagate). -/
def listPrepareItem (fieldDict : ColDict) (item : Item) : Except PyErr Item :=
  item.foldlM
    (fun acc kv => do
      match ← listFieldEval fieldDict kv.1 kv.2 with
      | Option.some (i, w) => pure (pyset acc i w)
      | Option.none => pure acc)
    []

/-- `List.prepare_data(insert_list)` over a list of items. -/
def listPrepareData (insertList : List Item) (fieldDict : ColDict) :
    Except PyErr (List Item) :=
  insertList.mapM (listPrepareItem fieldDict)

/-! ## Paginated reader (`get_list_items`) -/

/-- One scripted page response: the HTTP status and the parsed JSON envelope
(the `d.results` items, defaulting to the empty list, and the `d.__next`
continuation link). -/
structure PageResp where
  status : Nat
  results : List Item
  next : Option String
deriving DecidableEq, Repr

/-- Outcome of the paginated read loop. -/
inductive FetchResult where
  | done (items : List Item)
  | fatal
  | outOfScript (items : List Item)
deriving DecidableEq, Repr

/-- The `while endpoint:` loop of `get_list_items`, run against a finite
script of responses (one response consumed per request).  The source calls
`response.raise_for_status()` before inspecting the status, so any status of
400 or more raises and aborts; a 200 page appends its results and moves the
endpoint to the continuation link; any other status leaves both the
accumulator and the endpoint unchanged, so the same page is requested again.
Exhausting the script while the endpoint is still set means the real loop
would keep issuing requests. -/
def getItemsLoop : List PageResp → List Item → FetchResult
  | [], acc => FetchResult.outOfScript acc
  | r :: rest, acc =>
      if r.status ≥ 400 then FetchResult.fatal
      else if r.status = 200 then
        match r.next with
        | Option.some _ => getItemsLoop rest (acc ++ r.results)
        | Option.none => FetchResult.done (acc ++ r.results)
      else getItemsLoop rest acc

/-- `get_list_items` against a response script, starting from the items
endpoint with an empty accumulator. -/
def getListItems (script : List PageResp) : FetchResult :=
  getItemsLoop script []

/-- Build a script of well-behaved 200 pages, chained by continuation links
with none on the last page. -/
def mkScript : List (List Item) → List PageResp
  | [] => []
  | [page] => [⟨200, page, Option.none⟩]
  | page :: rest => ⟨200, page, Option.some "next"⟩ :: mkScript rest

/-! ## Batch splitting and the multipart insert-batch builder
(src/sharepoint/list/list_batch_operations.py) -/

/-- The slicing loop `for i in range(0, len(items), batch_size)` of the
`*_items_in_batches` functions: consecutive slices `items[i : i + k]`. -/
def sliceChunks {α : Type} (items : List α) (k : Nat) : List (List α) :=
  (List.range ((items.length + k - 1) / k)).map
    (fun i => (items.drop (i * k)).take k)

/-- A single quote character, kept out of string literals. -/
def sqt : String := String.mk [Char.ofNat 39]

/-- Rendering of one body dict `str({'__metadata': {'type': dtype}, **item})`
(schematic; every rendering starts with an opening brace). -/
def renderBody (dtype : String) (item : Item) : String :=
  "\x7b" ++ (sqt ++ "__metadata" ++ sqt ++ ": \x7b" ++ sqt ++ "type" ++ sqt ++ ": " ++
    sqt ++ dtype ++ sqt ++ "\x7d" ++
    String.join (item.map (fun kv => ", " ++ sqt ++ kv.1 ++ sqt ++ ": " ++ toString (repr kv.2))) ++
    "\x7d")

/-- `BatchOperations.__create_insert_batch`: the lines of the multipart body.
One changeset holds every operation of the given list; each item contributes
exactly one inner request part whose request line starts with POST. -/
def createInsertBatch (siteUrl listName : String) (insertList : List Item)
    (batchGuid changesetGuid dtype : String) : List String :=
  let header : List String :=
    ["--batch_" ++ batchGuid,
     "Content-Type: multipart/mixed; boundary=" ++ ("changeset_" ++ changesetGuid),
     ""]
  let parts : List String :=
    (insertList.map (fun item =>
      ["--" ++ ("changeset_" ++ changesetGuid),
       "Content-Type: application/http",
       "Content-Transfer-Encoding: binary",
       "",
       "POST " ++ (siteUrl ++ "_api/web/lists/getbytitle(" ++ sqt ++ listName ++ sqt ++ ")/items HTTP/1.1"),
       renderBody dtype item,
       "Content-Type: application/json;odata=verbose",
       ""])).flatten
  header ++ parts ++
    ["--" ++ ("changeset_" ++ changesetGuid ++ "--"), "--" ++ ("batch_" ++ batchGuid ++ "--")]

/-- Number of operations in a built batch body: its POST request lines. -/
def countOps (lines : List String) : Nat :=
  (lines.filter (fun l => "POST ".toList.isPrefixOf l.toList)).length

/-- Recursive formulation of the batch slicing, for reasoning: the first
`k + 1` elements, then the chunks of the rest. -/
def chunksRec {α : Type} (k : Nat) : List α → List (List α)
  | [] => []
  | x :: xs => ((x :: xs).take (k + 1)) :: chunksRec k ((x :: xs).drop (k + 1))
termination_by l => l.length
decreasing_by simp [List.length_drop]; omega

/-- `BatchOperations.insert_items_in_batches`: the bodies of the batch POSTs
it issues, one per slice. -/
def insertBatchBodies (siteUrl listName : String) (items : List Item) (k : Nat)
    (batchGuid changesetGuid dtype : String) : List (List String) :=
  (sliceChunks items k).map
    (fun chunk => createInsertBatch siteUrl listName chunk batchGuid changesetGuid dtype)

/-! ## Schema introspection -/

/-- One raw field record as returned by the fields endpoint. -/
structure RawColumn where
  title : String
  entityPropertyName : String
  typeAsString : String
  fieldTypeKind : Nat
  hidden : Bool
  readOnlyField : Bool
deriving DecidableEq, Repr

/-- The server-side filter in the request URL:
`$filter=Hidden eq false and ReadOnlyField eq false`. -/
def visibleColumns (columns : List RawColumn) : List RawColumn :=
  columns.filter (fun c => !c.hidden && !c.readOnlyField)

/-- The internal name computed per column by `get_required_columns`: the
`Id` suffix is appended for field type kinds 20 (user) and 7 (lookup). -/
def reqInternalName (c : RawColumn) : String :=
  if c.fieldTypeKind = 20 ∨ c.fieldTypeKind = 7 then c.entityPropertyName ++ "Id"
  else c.entityPropertyName

/-- The internal name computed per column by `get_column_datatypes` /
`__get_column_datatypes`: the `Id` suffix is appended only for field type
kind 20. -/
def dtInternalName (c : RawColumn) : String :=
  if c.fieldTypeKind = 20 then c.entityPropertyName ++ "Id"
  else c.entityPropertyName

/-- `ListOperations.get_required_columns` / `BaseList.get_required_columns`
applied to the full field collection of the list: starts from
`required_cols["Id"] = {}`, appends an Id suffix for field type kinds 20 and
7, and skips the entry whose internal name is ContentType. -/
def getRequiredColumns (columns : List RawColumn) : ColDict :=
  (visibleColumns columns).foldl
    (fun acc c =>
      if reqInternalName c ≠ "ContentType" then
        pyset acc c.title [("Internal Name", reqInternalName c), ("Data Type", c.typeAsString)]
      else acc)
    [("Id", [])]

/-- `ListOperations.get_column_datatypes` / `BaseList.__get_column_datatypes`:
same construction but with no initial Id entry and the Id suffix appended
only for field type kind 20. -/
def getColumnDatatypes (columns : List RawColumn) : ColDict :=
  (visibleColumns columns).foldl
    (fun acc c =>
      if dtInternalName c ≠ "ContentType" then
        pyset acc c.title [("Internal Name", dtInternalName c), ("Data Type", c.typeAsString)]
      else acc)
    []

/-! ## Digest tokens and write submissions as an event trace -/

/-- Network events relevant to the anti-forgery digest discipline. -/
inductive NetEvent where
  | contextInfo (token : Nat)
  | itemWrite (digest : Nat)
  | batchWrite (digest : Nat)
deriving DecidableEq, Repr

/-- Trace state: the server hands out consecutive fresh tokens. -/
structure NetSt where
  counter : Nat
  events : List NetEvent
deriving DecidableEq, Repr

/-- One synchronous POST to `_api/contextinfo` returning a fresh digest
(`SharePointConnector.__get_form_digest_value` and
`BatchOperations.__get_request_digest`). -/
def getFormDigest (s : NetSt) : Nat × NetSt :=
  (s.counter, ⟨s.counter + 1, s.events ++ [NetEvent.contextInfo s.counter]⟩)

/-- `SharePointConnector.__init__`: fetches the digest once and stores it in
`self.digest_value`. -/
def spConnectorInit (s : NetSt) : Nat × NetSt :=
  getFormDigest s

/-- The write traffic of `List.insert_items`: `request_digest =
self.digest_value` is read once and each single-item POST carries it. -/
def insertItems (digestValue : Nat) (items : List Item) (s : NetSt) : NetSt :=
  items.foldl (fun st _ => ⟨st.counter, st.events ++ [NetEvent.itemWrite digestValue]⟩) s

/-- The per-batch loop of `BatchOperations.insert_items_in_batches`: for each
slice, one fresh digest fetch (`__get_request_digest`) immediately followed
by the batch POST carrying that digest. -/
def batchLoop : List (List Item) → NetSt → NetSt
  | [], s => s
  | _ :: rest, s =>
      let p := getFormDigest s
      batchLoop rest ⟨p.2.counter, p.2.events ++ [NetEvent.batchWrite p.1]⟩

/-- The write traffic of `BatchOperations.insert_items_in_batches`. -/
def insertItemsInBatchesNet (items : List Item) (k : Nat) (s : NetSt) : NetSt :=
  batchLoop (sliceChunks items k) s

/-- The digests carried by the write events of a trace, in order. -/
def writeDigests (evs : List NetEvent) : List Nat :=
  evs.filterMap (fun e =>
    match e with
    | NetEvent.itemWrite d => Option.some d
    | NetEvent.batchWrite d => Option.some d
    | NetEvent.contextInfo _ => Option.none)

/-! ## Single-item insert/update payload accumulation
(src/sharepoint/sharepoint_operations.py, `insert_list_items` and
`update_list_items`) -/

/-- One iteration of the payload-filling loop: every field of the item except
`Id`, `Attachment List` and `Modified` is assigned into the shared payload
dict. -/
def payloadStep (payload : Item) (item : Item) : Item :=
  item.foldl
    (fun p kv =>
      if kv.1 = "Id" ∨ kv.1 = "Attachment List" ∨ kv.1 = "Modified" then p
      else pyset p kv.1 kv.2)
    payload

/-- The payloads POSTed by `insert_list_items` (identically by
`update_list_items`), in order: the payload dict is created once, with only
the `__metadata` tag, before the loop and mutated in place, and its current
state is what each POST sends. -/
def insertPayloads (metaV : Value) (items : List Item) : List Item :=
  (items.foldl
    (fun (st : Item × List Item) item =>
      let p := payloadStep st.1 item
      (p, st.2 ++ [p]))
    ([("__metadata", metaV)], [])).2

/-! ## The diff engine: `Utils.get_list_diff` (src/utils/methods.py)

The function is modelled with an instrumented event trace: every appended
insert or update is also recorded as a `DiffEvent` carrying the primary-key
value it was emitted for and whether it came from the comparison branch
(`upd`) or from the tombstone pass (`close`).  The returned pair
`(inserts, updates)` of the source is the projection of this trace. -/

/-- Provenance-tagged record of one emission of `get_list_diff`. -/
inductive DiffEvent where
  | ins (key : Value) (data : Item)
  | upd (key : Value) (data : Item)
  | close (key : Value) (data : Item)
deriving DecidableEq, Repr

/-- Loop state of `get_list_diff`: the two result lists, the current contents
of the destination list `b` (whose items the tombstone pass mutates in
place), and the instrumentation trace. -/
structure DiffSt where
  inserts : List Item
  updates : List Item
  b : List Item
  events : List DiffEvent
deriving DecidableEq, Repr

/-- Value membership in a list of keys. -/
def valMem (ks : List Value) (t : Value) : Bool :=
  ks.any (fun k => k = t)

/-- The keys of a dict comprehension `{item[pk]: item for item in l}`, in
order: `KeyError` as soon as one item lacks the primary key. -/
def listKeys (l : List Item) (pk : String) : Except PyErr (List Value) :=
  match l with
  | [] => Except.ok []
  | it :: rest => do
      let t ← ofOpt PyErr.keyError (pyget it pk)
      let ts ← listKeys rest pk
      Except.ok (t :: ts)

/-- Lookup `dict_b[title]` against the current contents of `b`: the dict was
built once, so its key set is the original one (`keysB`, positionally),
while its values alias the — possibly mutated — items; the last item whose
original key matches wins. -/
def lookupBCur (bcur : List Item) (keysB : List Value) (title : Value) : Item :=
  (bcur.zip keysB).foldl (fun acc p => if p.2 = title then p.1 else acc) []

/-- The guard `item_a.get("Customer Name") and 'kpmg' in
item_a['Customer Name'].lower()`: falsy or missing means not eligible, a
truthy non-string raises `AttributeError` from `.lower()`. -/
def eligibleItem (itemA : Item) : Except PyErr Bool :=
  match pyget itemA "Customer Name" with
  | Option.none => Except.ok false
  | Option.some v =>
      if truthy v then
        match v with
        | Value.str s => Except.ok (hasKpmg s)
        | _ => Except.error PyErr.attributeError
      else Except.ok false

/-- The field scan `for key in item_a: if key not in ['Id', 'Modified'] and
item_a[key] != item_b.get(key)`: a missing destination field reads as
`None`. -/
def fieldsDiffer (itemA itemB : Item) : Bool :=
  itemA.any (fun kv =>
    kv.1 != "Id" && kv.1 != "Modified" &&
    (pyget itemB kv.1).getD Value.none != kv.2)

/-- The tombstone pass `for item_b in b:` — one full sweep of the current
destination list; every item whose key is absent from `keysA` gets
`item_b['Current Status'] = 'Closed'` (in-place mutation, reflected in the
returned list) and its prepared form appended as an update. -/
def tombLoop (cols : ColDict) (pk : String) (keysA : List Value) :
    List Item → Except PyErr (List Item × List Item × List DiffEvent)
  | [] => Except.ok ([], [], [])
  | itemB :: rest => do
      let title ← ofOpt PyErr.keyError (pyget itemB pk)
      if valMem keysA title then do
        let (rest2, ups, evs) ← tombLoop cols pk keysA rest
        Except.ok (itemB :: rest2, ups, evs)
      else
        let itemB2 := pyset itemB "Current Status" (Value.str "Closed")
        let ud := prepareData itemB2 cols
        do
          let (rest2, ups, evs) ← tombLoop cols pk keysA rest
          Except.ok (itemB2 :: rest2, ud :: ups, DiffEvent.close title ud :: evs)

/-- The eligibility-guarded insert/update branch of the loop body of
`get_list_diff`. -/
def branchStep (cols : ColDict) (pk : String) (keysB : List Value)
    (itemA : Item) (st : DiffSt) : Except PyErr DiffSt := do
  let el ← eligibleItem itemA
  if el then do
    let title ← ofOpt PyErr.keyError (pyget itemA pk)
    if !(valMem keysB title) then
      let d1 := prepareData itemA cols
      let insertData := pyUpdate d1 (prepareData [("Update Flag", Value.str "True")] cols)
      Except.ok { st with
        inserts := st.inserts ++ [insertData],
        events := st.events ++ [DiffEvent.ins title insertData] }
    else do
      let itemB := lookupBCur st.b keysB title
      let flagV ← ofOpt PyErr.keyError (pyget itemB "Update Flag")
      let flag ← strToBool flagV
      if flag then do
        let mva ← ofOpt PyErr.keyError (pyget itemA "Modified")
        let ma ← fromIso mva
        let mvb ← ofOpt PyErr.keyError (pyget itemB "Modified")
        let mb ← fromIso mvb
        if chronoLt mb ma && fieldsDiffer itemA itemB then
          let ud := prepareData itemA cols
          Except.ok { st with
            updates := st.updates ++ [ud],
            events := st.events ++ [DiffEvent.upd title ud] }
        else Except.ok st
      else Except.ok st
  else Except.ok st

/-- The conditional tombstone pass of the loop body: runs whenever
`len(inserts) + len(b) > len(a)` holds at that moment. -/
def tombsStep (cols : ColDict) (pk : String) (a : List Item)
    (st1 : DiffSt) : Except PyErr DiffSt :=
  if st1.inserts.length + st1.b.length > a.length then do
    let keysA ← listKeys a pk
    let (b2, ups, evs) ← tombLoop cols pk keysA st1.b
    Except.ok { st1 with
      b := b2,
      updates := st1.updates ++ ups,
      events := st1.events ++ evs }
  else Except.ok st1

/-- The body of `for item_a in a:` — the eligibility-guarded insert/update
branch followed by the conditional tombstone pass. -/
def processItem (cols : ColDict) (pk : String) (a : List Item)
    (keysB : List Value) (itemA : Item) (st : DiffSt) : Except PyErr DiffSt := do
  let st1 ← branchStep cols pk keysB itemA st
  tombsStep cols pk a st1

/-- A primary-key value carried by some item of the source snapshot. -/
def keyInSrc (a : List Item) (pk : String) (t : Value) : Prop :=
  ∃ itA ∈ a, pyget itA pk = Option.some t

/-- The provenance invariant of the instrumentation trace: inserted keys are
source keys missing from the destination, comparison-update keys are source
keys present in the destination, close keys are destination keys missing
from the source. -/
def evInv (a : List Item) (pk : String) (keysB : List Value) : DiffEvent → Prop
  | DiffEvent.ins t _ => keyInSrc a pk t ∧ valMem keysB t = false
  | DiffEvent.upd t _ => keyInSrc a pk t ∧ valMem keysB t = true
  | DiffEvent.close t _ => ¬ keyInSrc a pk t ∧ valMem keysB t = true

/-- The main loop of `get_list_diff` over the source items. -/
def diffLoop (cols : ColDict) (pk : String) (a : List Item)
    (keysB : List Value) : List Item → DiffSt → Except PyErr DiffSt
  | [], st => Except.ok st
  | itemA :: rest, st => do
      let st2 ← processItem cols pk a keysB itemA st
      diffLoop cols pk a keysB rest st2

/-- `Utils.get_list_diff(a, b, required_destination_cols, primary_key)` with
its instrumentation trace: first the dict comprehension over `b` (raising
`KeyError` when a destination item lacks the primary key), then the loop. -/
def getListDiffEv (a b : List Item) (cols : ColDict) (pk : String) :
    Except PyErr DiffSt := do
  let keysB ← listKeys b pk
  diffLoop cols pk a keysB a ⟨[], [], b, []⟩

/-- The pair `(inserts, updates)` that `Utils.get_list_diff` returns. -/
def getListDiff (a b : List Item) (cols : ColDict) (pk : String) :
    Except PyErr (List Item × List Item) :=
  (getListDiffEv a b cols pk).map (fun st => (st.inserts, st.updates))

/-! ## Helper lemmas about the dict model -/

theorem pyget_cons {β : Type} (hd : String × β) (tl : PyDict β) (key : String) :
    pyget (hd :: tl) key = if hd.1 = key then Option.some hd.2 else pyget tl key := by
  by_cases h : hd.1 = key <;> simp [pyget, List.find?, h]

theorem pyget_map_subst_ne {β : Type} (d : PyDict β) (k key : String) (v : β)
    (h : key ≠ k) :
    pyget (d.map (fun kv => if kv.1 = k then (k, v) else kv)) key = pyget d key := by
  induction d with
  | nil => rfl
  | cons hd tl ih =>
      by_cases hhd : hd.1 = k
      · have h2 : ¬ (k = key) := fun hc => h hc.symm
        have h3 : ¬ (hd.1 = key) := by rw [hhd]; exact h2
        simp [List.map_cons, hhd, pyget_cons, h2, h3, ih]
      · simp [List.map_cons, hhd, pyget_cons, ih]

theorem pyget_map_subst_self {β : Type} (d : PyDict β) (k : String) (v : β) :
    pyget (d.map (fun kv => if kv.1 = k then (k, v) else kv)) k =
      if d.any (fun kv => kv.1 = k) then Option.some v else Option.none := by
  induction d with
  | nil => rfl
  | cons hd tl ih =>
      by_cases hhd : hd.1 = k
      · simp [List.map_cons, hhd, pyget_cons, List.any_cons]
      · by_cases htl : tl.any (fun kv => decide (kv.1 = k)) = true
        · simp [List.map_cons, hhd, pyget_cons, ih, List.any_cons, htl]
        · have htl2 : tl.any (fun kv => decide (kv.1 = k)) = false := by
            cases h2 : tl.any (fun kv => decide (kv.1 = k)) with
            | false => rfl
            | true => exact absurd h2 htl
          simp [List.map_cons, hhd, pyget_cons, ih, List.any_cons, htl2]

theorem pyget_eq_none_of_any_false {β : Type} (d : PyDict β) (k : String)
    (h : d.any (fun kv => kv.1 = k) = false) : pyget d k = Option.none := by
  induction d with
  | nil => rfl
  | cons hd tl ih =>
      rw [List.any_cons, Bool.or_eq_false_iff] at h
      obtain ⟨h1, h2⟩ := h
      have h1p : ¬ hd.1 = k := by simpa using h1
      simp [pyget_cons, h1p, ih h2]

theorem pyget_pyset {β : Type} (d : PyDict β) (k key : String) (v : β) :
    pyget (pyset d k v) key = if key = k then Option.some v else pyget d key := by
  unfold pyset
  by_cases hany : d.any (fun kv => kv.1 = k)
  · simp only [hany, if_true]
    by_cases hkey : key = k
    · subst hkey
      simp [pyget_map_subst_self, hany]
    · simp [pyget_map_subst_ne d k key v hkey, hkey]
  · have hany2 : d.any (fun kv => kv.1 = k) = false := by
      cases h : d.any (fun kv => kv.1 = k) with
      | false => rfl
      | true => exact absurd h hany
    simp only [hany2, Bool.false_eq_true, if_false]
    have hnone : pyget d k = Option.none := pyget_eq_none_of_any_false d k hany2
    by_cases hkey : key = k
    · subst hkey
      simp only [pyget, List.find?_append] at *
      cases hfd : List.find? (fun kv => kv.1 = key) d with
      | some x => rw [hfd] at hnone; simp at hnone
      | none => simp [hfd, List.find?]
    · have hne : ¬ (k = key) := fun hc => hkey hc.symm
      simp only [pyget, List.find?_append, hkey, if_false]
      cases hfd : List.find? (fun kv => kv.1 = key) d with
      | some x => simp [hfd]
      | none => simp [hfd, List.find?, hne]

theorem mem_pyset {β : Type} (d : PyDict β) (k : String) (v : β) (x : String × β)
    (hx : x ∈ pyset d k v) : x ∈ d ∨ x = (k, v) := by
  unfold pyset at hx
  by_cases hany : d.any (fun kv => kv.1 = k)
  · simp only [hany, if_true] at hx
    rcases List.mem_map.mp hx with ⟨y, hy, hxy⟩
    by_cases hyk : y.1 = k
    · right; rw [if_pos hyk] at hxy; exact hxy.symm
    · left; rw [if_neg hyk] at hxy; exact hxy ▸ hy
  · simp only [hany, Bool.false_eq_true, if_false] at hx
    rcases List.mem_append.mp hx with h | h
    · exact Or.inl h
    · right; simpa using h

/-! ## C10: `Utils.prepare_data` swallows all processing errors -/

theorem prepareDataAux_append_error (cols : ColDict) (pre post : List (String × Value))
    (key : String) (v : Value) (e : PyErr)
    (herr : fieldEval cols key v = Except.error e) :
    ∀ acc, prepareDataAux cols (pre ++ (key, v) :: post) acc = prepareDataAux cols pre acc := by
  induction pre with
  | nil =>
      intro acc
      simp [prepareDataAux, herr]
  | cons hd tl ih =>
      intro acc
      obtain ⟨k0, v0⟩ := hd
      simp only [List.cons_append, prepareDataAux]
      cases fieldEval cols k0 v0 with
      | ok o =>
          cases o with
          | some p => exact ih (pyset acc p.1 p.2)
          | none => exact ih acc
      | error e2 => rfl

/-- C10: every exception raised while processing an item field inside
`Utils.prepare_data` — for example an unconvertible `Number` value or a field
name missing from the column dict — is caught by the enclosing
`try`/`except`; the function returns the partially built item, so the
failing field and every not-yet-processed field are silently dropped and no
error reaches the caller. -/
theorem c10_prepare_data_swallows_errors (cols : ColDict)
    (pre post : List (String × Value)) (key : String) (v : Value) (e : PyErr)
    (herr : fieldEval cols key v = Except.error e) :
    prepareData (pre ++ (key, v) :: post) cols = prepareData pre cols :=
  prepareDataAux_append_error cols pre post key v e herr []

/-- Witness for C10: an unconvertible `Number` string makes the failing field
and the field after it disappear while the fields before it survive. -/
theorem c10_witness :
    fieldEval [("Score", [("Internal Name", "ScoreI"), ("Data Type", "Number")])]
        "Score" (Value.str "abc") = Except.error PyErr.valueError ∧
    prepareData
        ([("Id", Value.int 3)] ++ ("Score", Value.str "abc") :: [("Other", Value.str "x")])
        [("Score", [("Internal Name", "ScoreI"), ("Data Type", "Number")])] =
      prepareData [("Id", Value.int 3)]
        [("Score", [("Internal Name", "ScoreI"), ("Data Type", "Number")])] :=
  ⟨by rfl,
   c10_prepare_data_swallows_errors
     [("Score", [("Internal Name", "ScoreI"), ("Data Type", "Number")])]
     [("Id", Value.int 3)] [("Other", Value.str "x")] "Score" (Value.str "abc")
     PyErr.valueError (by rfl)⟩

/-! ## C4: Number coercion -/

/-- C4 counterexample: in `List.prepare_data` a `None` value in a
`Number`-typed field does not become an absent field — `float(None)` raises
`TypeError`, which the `except ValueError` handler does not catch, so the
whole call raises. -/
theorem c4_counterexample :
    listPrepareData [[("Score", Value.none)]]
        [("Score", [("Internal Name", "ScoreI"), ("Data Type", "Number")])] =
      Except.error PyErr.typeError := by
  rfl

/-- C4 (amended): for a `Number`-typed field, `Utils.prepare_data` maps an
`int()`-convertible string to its integer value and drops the field for a
null or unconvertible value (never zero); `List.prepare_data` maps a
`float()`-convertible string to its float value and drops the field when the
conversion raises `ValueError` (never zero), but a `None` value raises an
uncaught `TypeError` instead of yielding an absent field. -/
theorem c4_number_coercion (cols : ColDict) (key : String) (inner : ColEntry)
    (iname : String) (s : String)
    (hc : pyget cols key = Option.some inner)
    (hdt : pyget inner "Data Type" = Option.some "Number")
    (hin : pyget inner "Internal Name" = Option.some iname)
    (hkey : ¬ (key = "Attachment List" ∨ key = "Id" ∨ key = "Attachments"))
    (hmod : ¬ key = "Modified") :
    (∀ n : Int, parseIntStr s = Option.some n →
      prepareData [(key, Value.str s)] cols = [(iname, Value.int n)]) ∧
    (s ≠ "" → parseIntStr s = Option.none →
      prepareData [(key, Value.str s)] cols = []) ∧
    (prepareData [(key, Value.none)] cols = []) ∧
    (∀ q : Rat, parseFloatStr s = Option.some q →
      listPrepareData [[(key, Value.str s)]] cols = Except.ok [[(iname, Value.float q)]]) ∧
    (parseFloatStr s = Option.none →
      listPrepareData [[(key, Value.str s)]] cols = Except.ok [[]]) ∧
    (listPrepareData [[(key, Value.none)]] cols = Except.error PyErr.typeError) := by
  have hnotText : ¬ ("Number" : String) = "Text" := by decide
  refine ⟨?_, ?_, ?_, ?_, ?_, ?_⟩
  · intro n hn
    have hs : s ≠ "" := by
      intro h
      subst h
      have : parseIntStr "" = Option.none := by rfl
      rw [this] at hn
      exact Option.noConfusion hn
    simp [prepareData, prepareDataAux, fieldEval, hkey, hmod, truthy, hs, hc, hdt, hin,
      coerceUtils, pyInt, hn, pyset, ofOpt, Except.bind, bind]
  · intro hs hn
    simp [prepareData, prepareDataAux, fieldEval, hkey, hmod, truthy, hs, hc, hdt, hin,
      coerceUtils, pyInt, hn, ofOpt, Except.bind, bind]
  · simp [prepareData, prepareDataAux, fieldEval, hkey, truthy]
  · intro q hq
    simp [listPrepareData, listPrepareItem, listFieldEval, hc, hdt, hin, pyFloat, hq,
      pyset, ofOpt, Except.bind, bind, pure, Except.pure, List.mapM, List.mapM.loop, List.foldlM]
  · intro hq
    simp [listPrepareData, listPrepareItem, listFieldEval, hc, hdt, hin, pyFloat, hq,
      ofOpt, Except.bind, bind, pure, Except.pure, List.mapM, List.mapM.loop, List.foldlM]
  · simp [listPrepareData, listPrepareItem, listFieldEval, hc, hdt, hin, pyFloat,
      ofOpt, Except.bind, bind, pure, Except.pure, List.mapM, List.mapM.loop, List.foldlM]

/-- Witness for C4: concrete Number coercions through both functions. -/
theorem c4_witness :
    prepareData [("Score", Value.str "42")]
        [("Score", [("Internal Name", "ScoreI"), ("Data Type", "Number")])] =
      [("ScoreI", Value.int 42)] ∧
    prepareData [("Score", Value.str "oops")]
        [("Score", [("Internal Name", "ScoreI"), ("Data Type", "Number")])] = [] ∧
    listPrepareData [[("Score", Value.none)]]
        [("Score", [("Internal Name", "ScoreI"), ("Data Type", "Number")])] =
      Except.error PyErr.typeError := by
  have h := c4_number_coercion
    [("Score", [("Internal Name", "ScoreI"), ("Data Type", "Number")])]
    "Score" [("Internal Name", "ScoreI"), ("Data Type", "Number")] "ScoreI" "42"
    (by rfl) (by rfl) (by rfl) (by decide) (by decide)
  have h2 := c4_number_coercion
    [("Score", [("Internal Name", "ScoreI"), ("Data Type", "Number")])]
    "Score" [("Internal Name", "ScoreI"), ("Data Type", "Number")] "ScoreI" "oops"
    (by rfl) (by rfl) (by rfl) (by decide) (by decide)
  exact ⟨h.1 42 (by rfl), h2.2.1 (by decide) (by rfl), h.2.2.2.2.2⟩

/-! ## C5: paginated retrieval -/

theorem getItemsLoop_all200 (pages : List (List Item)) (hne : pages ≠ []) :
    ∀ acc, getItemsLoop (mkScript pages) acc = FetchResult.done (acc ++ pages.flatten) := by
  induction pages with
  | nil => exact absurd rfl hne
  | cons p rest ih =>
      intro acc
      cases rest with
      | nil => simp [mkScript, getItemsLoop]
      | cons q rest2 =>
          have h1 : ¬ ((200 : Nat) ≥ 400) := by omega
          simp only [mkScript, getItemsLoop, h1, if_false, if_true]
          rw [ih (by simp)]
          simp [List.append_assoc]

/-- C5 counterexample: a 500 page response does not make the loop log and
continue with an empty page — `response.raise_for_status()` runs before the
status is inspected, so the run aborts fatally. -/
theorem c5_counterexample :
    getListItems [⟨500, [], Option.none⟩] = FetchResult.fatal := by
  rfl

/-- C5 (amended): `raise_for_status()` makes every response with status 400
or more — the 404 included — abort the whole run (the dedicated 404 branch
and the log-and-continue branch are dead for those statuses); a non-200
response below 400 adds no items and leaves the endpoint unchanged, so the
same page is simply requested again; on an all-200 script the loop
terminates exactly when a page carries no continuation link and returns the
pages' items in server order. -/
theorem c5_pagination (r : PageResp) (rest : List PageResp) (acc : List Item)
    (pages : List (List Item)) :
    (400 ≤ r.status → getItemsLoop (r :: rest) acc = FetchResult.fatal) ∧
    (r.status < 400 → r.status ≠ 200 → getItemsLoop (r :: rest) acc = getItemsLoop rest acc) ∧
    (pages ≠ [] → getListItems (mkScript pages) = FetchResult.done pages.flatten) := by
  refine ⟨?_, ?_, ?_⟩
  · intro h
    simp [getItemsLoop, h]
  · intro h1 h2
    have hge : ¬ (r.status ≥ 400) := by omega
    simp [getItemsLoop, hge, h2]
  · intro hne
    have h := getItemsLoop_all200 pages hne []
    simpa [getListItems] using h

/-- Witness for C5: a 404 aborts, a 204 retries the same endpoint, and two
chained 200 pages are concatenated in order. -/
theorem c5_witness :
    getItemsLoop [⟨404, [], Option.none⟩] [] = FetchResult.fatal ∧
    getItemsLoop [⟨204, [], Option.none⟩, ⟨200, [[("Id", Value.int 1)]], Option.none⟩] [] =
      getItemsLoop [⟨200, [[("Id", Value.int 1)]], Option.none⟩] [] ∧
    getListItems (mkScript [[[("Id", Value.int 1)]], [[("Id", Value.int 2)]]]) =
      FetchResult.done [[("Id", Value.int 1)], [("Id", Value.int 2)]] :=
  ⟨(c5_pagination ⟨404, [], Option.none⟩ [] [] []).1 (by decide),
   (c5_pagination ⟨204, [], Option.none⟩ [⟨200, [[("Id", Value.int 1)]], Option.none⟩] [] []).2.1
     (by decide) (by decide),
   (c5_pagination ⟨0, [], Option.none⟩ [] [] [[[("Id", Value.int 1)]], [[("Id", Value.int 2)]]]).2.2
     (by decide)⟩

/-! ## C7: schema introspection -/

theorem mem_foldl_step {β : Type} (f : PyDict β → RawColumn → PyDict β)
    (Q : RawColumn → String × β → Prop)
    (hf : ∀ acc c, f acc c = acc ∨
      ∃ kv, f acc c = pyset acc kv.1 kv.2 ∧ Q c kv) :
    ∀ (l : List RawColumn) (acc : PyDict β) (x : String × β),
      x ∈ l.foldl f acc → x ∈ acc ∨ ∃ c, c ∈ l ∧ Q c x := by
  intro l
  induction l with
  | nil =>
      intro acc x hx
      exact Or.inl hx
  | cons c rest ih =>
      intro acc x hx
      simp only [List.foldl_cons] at hx
      rcases ih (f acc c) x hx with h | ⟨c2, hc2, hq⟩
      · rcases hf acc c with h2 | ⟨kv, h2, hq2⟩
        · exact Or.inl (h2 ▸ h)
        · rw [h2] at h
          rcases mem_pyset acc kv.1 kv.2 x h with h3 | h3
          · exact Or.inl h3
          · right
            refine ⟨c, List.mem_cons_self c rest, ?_⟩
            have : x = kv := by
              cases kv
              simpa using h3
            rw [this]
            exact hq2
      · exact Or.inr ⟨c2, List.mem_cons_of_mem c hc2, hq⟩

/-- C7 counterexample: a visible lookup column (field type kind 7) gets the
`Id` suffix from `get_required_columns` but not from
`get_column_datatypes` / `__get_column_datatypes`, so not every
schema-introspection function appends the suffix for kind 7. -/
theorem c7_counterexample :
    getColumnDatatypes [⟨"Dept", "Dept", "Lookup", 7, false, false⟩] =
      [("Dept", [("Internal Name", "Dept"), ("Data Type", "Lookup")])] ∧
    getRequiredColumns [⟨"Dept", "Dept", "Lookup", 7, false, false⟩] =
      [("Id", []), ("Dept", [("Internal Name", "DeptId"), ("Data Type", "Lookup")])] := by
  constructor <;> rfl

/-- C7 (amended): both schema-introspection functions return (beyond the
hard-coded empty `Id` entry of `get_required_columns`) only columns that are
neither hidden nor read-only and whose computed internal name is not
ContentType; `get_required_columns` appends the `Id` suffix for field type
kinds 20 and 7, while `get_column_datatypes` / `__get_column_datatypes`
appends it only for kind 20. -/
theorem c7_schema_columns (columns : List RawColumn) (t : String) (e : ColEntry) :
    ((t, e) ∈ getRequiredColumns columns →
      (t, e) = ("Id", ([] : ColEntry)) ∨
      ∃ c, c ∈ columns ∧ c.hidden = false ∧ c.readOnlyField = false ∧ c.title = t ∧
        reqInternalName c ≠ "ContentType" ∧
        e = [("Internal Name", reqInternalName c), ("Data Type", c.typeAsString)]) ∧
    ((t, e) ∈ getColumnDatatypes columns →
      ∃ c, c ∈ columns ∧ c.hidden = false ∧ c.readOnlyField = false ∧ c.title = t ∧
        dtInternalName c ≠ "ContentType" ∧
        e = [("Internal Name", dtInternalName c), ("Data Type", c.typeAsString)]) := by
  constructor
  · intro hx
    unfold getRequiredColumns at hx
    have h := mem_foldl_step _
      (fun c kv => kv.1 = c.title ∧ reqInternalName c ≠ "ContentType" ∧
        kv.2 = [("Internal Name", reqInternalName c), ("Data Type", c.typeAsString)])
      (by
        intro acc c
        by_cases hct : reqInternalName c ≠ "ContentType"
        · right
          exact ⟨(c.title, [("Internal Name", reqInternalName c), ("Data Type", c.typeAsString)]),
            by simp [hct], rfl, hct, rfl⟩
        · left
          simp [hct])
      (visibleColumns columns) [("Id", [])] (t, e) hx
    rcases h with h | ⟨c, hc, ht, hct, he⟩
    · left
      simpa using h
    · right
      have hvc := List.mem_filter.mp hc
      refine ⟨c, hvc.1, ?_, ?_, ht.symm, hct, he⟩
      · rcases Bool.and_eq_true_iff.mp hvc.2 with ⟨h1, _⟩
        simpa using h1
      · rcases Bool.and_eq_true_iff.mp hvc.2 with ⟨_, h2⟩
        simpa using h2
  · intro hx
    unfold getColumnDatatypes at hx
    have h := mem_foldl_step _
      (fun c kv => kv.1 = c.title ∧ dtInternalName c ≠ "ContentType" ∧
        kv.2 = [("Internal Name", dtInternalName c), ("Data Type", c.typeAsString)])
      (by
        intro acc c
        by_cases hct : dtInternalName c ≠ "ContentType"
        · right
          exact ⟨(c.title, [("Internal Name", dtInternalName c), ("Data Type", c.typeAsString)]),
            by simp [hct], rfl, hct, rfl⟩
        · left
          simp [hct])
      (visibleColumns columns) [] (t, e) hx
    rcases h with h | ⟨c, hc, ht, hct, he⟩
    · simp at h
    · have hvc := List.mem_filter.mp hc
      refine ⟨c, hvc.1, ?_, ?_, ht.symm, hct, he⟩
      · rcases Bool.and_eq_true_iff.mp hvc.2 with ⟨h1, _⟩
        simpa using h1
      · rcases Bool.and_eq_true_iff.mp hvc.2 with ⟨_, h2⟩
        simpa using h2

/-- Witness for C7: the concrete visible user column maps through both
functions with the `Id` suffix. -/
theorem c7_witness :
    ((("Owner" : String), ([("Internal Name", "OwnerId"), ("Data Type", "User")] : ColEntry)) =
        ("Id", ([] : ColEntry)) ∨
      ∃ c, c ∈ [(⟨"Owner", "Owner", "User", 20, false, false⟩ : RawColumn)] ∧
        c.hidden = false ∧ c.readOnlyField = false ∧ c.title = "Owner" ∧
        reqInternalName c ≠ "ContentType" ∧
        ([("Internal Name", "OwnerId"), ("Data Type", "User")] : ColEntry) =
          [("Internal Name", reqInternalName c), ("Data Type", c.typeAsString)]) :=
  (c7_schema_columns [⟨"Owner", "Owner", "User", 20, false, false⟩] "Owner"
    [("Internal Name", "OwnerId"), ("Data Type", "User")]).1 (by decide)

/-! ## C8: digest token discipline -/

theorem insertItems_trace (d : Nat) (items : List Item) :
    ∀ s : NetSt, insertItems d items s =
      ⟨s.counter, s.events ++ items.map (fun _ => NetEvent.itemWrite d)⟩ := by
  induction items with
  | nil =>
      intro s
      simp [insertItems]
  | cons it rest ih =>
      intro s
      calc insertItems d (it :: rest) s
          = insertItems d rest ⟨s.counter, s.events ++ [NetEvent.itemWrite d]⟩ := rfl
        _ = _ := by rw [ih]; simp

theorem batchLoop_trace (l : List (List Item)) :
    ∀ s : NetSt, batchLoop l s =
      ⟨s.counter + l.length,
       s.events ++ ((List.range l.length).map
         (fun i => [NetEvent.contextInfo (s.counter + i),
                    NetEvent.batchWrite (s.counter + i)])).flatten⟩ := by
  induction l with
  | nil =>
      intro s
      simp [batchLoop]
  | cons c rest ih =>
      intro s
      calc batchLoop (c :: rest) s
          = batchLoop rest ⟨s.counter + 1,
              (s.events ++ [NetEvent.contextInfo s.counter]) ++ [NetEvent.batchWrite s.counter]⟩ := rfl
        _ = _ := by
            rw [ih]
            simp only [NetSt.mk.injEq]
            refine ⟨by simp [List.length_cons]; omega, ?_⟩
            rw [List.length_cons, List.range_succ_eq_map, List.map_cons, List.flatten_cons,
              List.map_map]
            have hfun : ((fun i => [NetEvent.contextInfo (s.counter + i),
                NetEvent.batchWrite (s.counter + i)]) ∘ Nat.succ) =
                (fun i => [NetEvent.contextInfo (s.counter + 1 + i),
                           NetEvent.batchWrite (s.counter + 1 + i)]) := by
              funext i
              have h2 : s.counter + (i + 1) = s.counter + 1 + i := by omega
              simp [Function.comp, Nat.succ_eq_add_one, h2]
            rw [hfun]
            simp [List.append_assoc]

theorem writeDigests_pairs (ns : List Nat) :
    writeDigests ((ns.map
      (fun j => [NetEvent.contextInfo j, NetEvent.batchWrite j])).flatten) = ns := by
  induction ns with
  | nil => rfl
  | cons n rest ih => simp [writeDigests, List.filterMap_cons] at ih ⊢; exact ih

/-- C8 counterexample: `List.insert_items` reads `self.digest_value` — the
token fetched once by `SharePointConnector.__init__` — and sends it with
every single-item POST, so the same digest token is reused across
submissions, with no fresh contextinfo round trip in between. -/
theorem c8_counterexample :
    ¬ (writeDigests (insertItems (spConnectorInit ⟨0, []⟩).1
        [[("Title", Value.str "a")], [("Title", Value.str "b")]]
        (spConnectorInit ⟨0, []⟩).2).events).Nodup := by
  decide

/-- C8 (amended): only the batch submission functions fetch a fresh digest —
one contextinfo round trip immediately before each batch POST, so batch
write digests are pairwise distinct; the single-item insert/update/delete
requests of `List` all carry the one digest value fetched at connector
initialisation, reusing it for every submission. -/
theorem c8_digest_tokens (items : List Item) (k : Nat) (hk : 0 < k)
    (s : NetSt) (d : Nat) :
    (insertItems d items s).events =
      s.events ++ items.map (fun _ => NetEvent.itemWrite d) ∧
    (insertItemsInBatchesNet items k s).events =
      s.events ++ ((List.range ((items.length + k - 1) / k)).map
        (fun i => [NetEvent.contextInfo (s.counter + i),
                   NetEvent.batchWrite (s.counter + i)])).flatten ∧
    (writeDigests ((insertItemsInBatchesNet items k s).events.drop
      s.events.length)).Nodup := by
  have hb : insertItemsInBatchesNet items k s =
      ⟨s.counter + (items.length + k - 1) / k,
       s.events ++ ((List.range ((items.length + k - 1) / k)).map
         (fun i => [NetEvent.contextInfo (s.counter + i),
                    NetEvent.batchWrite (s.counter + i)])).flatten⟩ := by
    have h := batchLoop_trace (sliceChunks items k) s
    have hlen : (sliceChunks items k).length = (items.length + k - 1) / k := by
      simp [sliceChunks]
    rw [insertItemsInBatchesNet, h, hlen]
  refine ⟨?_, ?_, ?_⟩
  · rw [insertItems_trace]
  · rw [hb]
  · rw [hb]
    have hdrop :
        ((s.events ++ ((List.range ((items.length + k - 1) / k)).map
          (fun i => [NetEvent.contextInfo (s.counter + i),
                     NetEvent.batchWrite (s.counter + i)])).flatten).drop
          s.events.length) =
        ((List.range ((items.length + k - 1) / k)).map
          (fun i => [NetEvent.contextInfo (s.counter + i),
                     NetEvent.batchWrite (s.counter + i)])).flatten := by
      simp
    rw [hdrop]
    have hmapeq :
        ((List.range ((items.length + k - 1) / k)).map
          (fun i => [NetEvent.contextInfo (s.counter + i),
                     NetEvent.batchWrite (s.counter + i)])) =
        (((List.range ((items.length + k - 1) / k)).map (fun i => s.counter + i)).map
          (fun j => [NetEvent.contextInfo j, NetEvent.batchWrite j])) := by
      simp [List.map_map, Function.comp]
    rw [hmapeq, writeDigests_pairs]
    exact (List.nodup_range _).map (fun i j hij => by omega)

/-- Witness for C8: three items at batch size 2 give two batches with fresh,
distinct digests, while the single-item path repeats the stored digest. -/
theorem c8_witness :
    (insertItems 9 [[("A", Value.int 1)], [("B", Value.int 2)], [("C", Value.int 3)]]
        ⟨5, []⟩).events =
      [NetEvent.itemWrite 9, NetEvent.itemWrite 9, NetEvent.itemWrite 9] ∧
    (insertItemsInBatchesNet [[("A", Value.int 1)], [("B", Value.int 2)], [("C", Value.int 3)]]
        2 ⟨5, []⟩).events =
      [NetEvent.contextInfo 5, NetEvent.batchWrite 5,
       NetEvent.contextInfo 6, NetEvent.batchWrite 6] ∧
    (writeDigests ((insertItemsInBatchesNet
        [[("A", Value.int 1)], [("B", Value.int 2)], [("C", Value.int 3)]] 2
        ⟨5, []⟩).events.drop (0 : Nat))).Nodup :=
  c8_digest_tokens [[("A", Value.int 1)], [("B", Value.int 2)], [("C", Value.int 3)]]
    2 (by decide) ⟨5, []⟩ 9

/-! ## C9: the shared, mutated payload dict of the single-item write loops -/

theorem payloadFold_acc (items : List Item) :
    ∀ (p : Item) (acc : List Item),
      (items.foldl (fun (st : Item × List Item) item =>
        let q := payloadStep st.1 item
        (q, st.2 ++ [q])) (p, acc)).2 =
      acc ++ (items.foldl (fun (st : Item × List Item) item =>
        let q := payloadStep st.1 item
        (q, st.2 ++ [q])) (p, [])).2 := by
  induction items with
  | nil =>
      intro p acc
      simp
  | cons it rest ih =>
      intro p acc
      simp only [List.foldl_cons]
      rw [ih (payloadStep p it) (acc ++ [payloadStep p it]),
        ih (payloadStep p it) ([] ++ [payloadStep p it])]
      simp [List.append_assoc]

theorem insertPayloads_getD (metaV : Value) :
    ∀ (items : List Item) (p : Item) (k : Nat), k < items.length →
      ((items.foldl (fun (st : Item × List Item) item =>
        let q := payloadStep st.1 item
        (q, st.2 ++ [q])) (p, [])).2).getD k [] =
      (items.take (k + 1)).foldl payloadStep p := by
  intro items
  induction items with
  | nil =>
      intro p k hk
      exact absurd hk (by simp)
  | cons it rest ih =>
      intro p k hk
      simp only [List.foldl_cons]
      rw [payloadFold_acc rest (payloadStep p it) ([] ++ [payloadStep p it])]
      cases k with
      | zero => simp
      | succ k2 =>
          have hk2 : k2 < rest.length := by
            simpa using hk
          have := ih (payloadStep p it) k2 hk2
          simp only [List.nil_append, List.take_succ_cons, List.foldl_cons]
          simpa using this

theorem payloadFold_length (items : List Item) :
    ∀ (p : Item) (acc : List Item),
      (items.foldl (fun (st : Item × List Item) item =>
        let q := payloadStep st.1 item
        (q, st.2 ++ [q])) (p, acc)).2.length = acc.length + items.length := by
  induction items with
  | nil => intro p acc; simp
  | cons it rest ih =>
      intro p acc
      simp only [List.foldl_cons]
      rw [ih]
      simp
      omega

theorem payloadStep_no_write (key : String) :
    ∀ (it : Item) (p : Item),
      (∀ v : Value, (key, v) ∈ it →
        key = "Id" ∨ key = "Attachment List" ∨ key = "Modified") →
      pyget (payloadStep p it) key = pyget p key := by
  intro it
  induction it with
  | nil =>
      intro p _
      rfl
  | cons kv rest ih =>
      intro p h
      have hrest : ∀ v : Value, (key, v) ∈ rest →
          key = "Id" ∨ key = "Attachment List" ∨ key = "Modified" :=
        fun v hv => h v (List.mem_cons_of_mem kv hv)
      have hstep : payloadStep p (kv :: rest) =
          payloadStep
            (if kv.1 = "Id" ∨ kv.1 = "Attachment List" ∨ kv.1 = "Modified" then p
             else pyset p kv.1 kv.2) rest := rfl
      rw [hstep]
      by_cases hsp : kv.1 = "Id" ∨ kv.1 = "Attachment List" ∨ kv.1 = "Modified"
      · rw [if_pos hsp]
        exact ih p hrest
      · rw [if_neg hsp]
        have hne : kv.1 ≠ key := by
          intro hc
          have hkv : kv = (key, kv.2) := Prod.ext hc rfl
          have hm : (key, kv.2) ∈ kv :: rest := by
            rw [hkv]
            exact List.mem_cons_self _ _
          exact hsp (by rw [hc]; exact h kv.2 hm)
        rw [ih (pyset p kv.1 kv.2) hrest, pyget_pyset,
          if_neg (fun hc : key = kv.1 => hne hc.symm)]

theorem payload_persist (key : String) :
    ∀ (l2 : List Item) (p : Item),
      (∀ it ∈ l2, ∀ v : Value, (key, v) ∈ it →
        key = "Id" ∨ key = "Attachment List" ∨ key = "Modified") →
      pyget (l2.foldl payloadStep p) key = pyget p key := by
  intro l2
  induction l2 with
  | nil =>
      intro p _
      rfl
  | cons it rest ih =>
      intro p h
      simp only [List.foldl_cons]
      rw [ih (payloadStep p it) (fun it2 h2 => h it2 (List.mem_cons_of_mem it h2)),
        payloadStep_no_write key it p (h it (List.mem_cons_self it rest))]

/-- C9: in the single-item insert and update loops
(`SharePointOperations.insert_list_items` / `update_list_items`, and likewise
`List.update_list_items`), the payload dict is created once before the item
loop — holding only the `__metadata` tag — and mutated in place, so the
payload sent for the k-th item is the accumulation of the fields of items 1
through k: any field set by an earlier item and not overwritten later keeps
its value in every subsequent payload, and the payloads of distinct items
are not independent. -/
theorem c9_payload_accumulation (metaV : Value) (items : List Item) (k : Nat)
    (hk : k < items.length)
    (l1 l2 : List Item) (base : Item) (key : String)
    (hnw : ∀ it ∈ l2, ∀ v : Value, (key, v) ∈ it →
      key = "Id" ∨ key = "Attachment List" ∨ key = "Modified") :
    (insertPayloads metaV items).length = items.length ∧
    (insertPayloads metaV items).getD k [] =
      (items.take (k + 1)).foldl payloadStep [("__metadata", metaV)] ∧
    pyget ((l1 ++ l2).foldl payloadStep base) key =
      pyget (l1.foldl payloadStep base) key := by
  refine ⟨?_, ?_, ?_⟩
  · unfold insertPayloads
    rw [payloadFold_length]
    simp
  · unfold insertPayloads
    exact insertPayloads_getD metaV items [("__metadata", metaV)] k hk
  · rw [List.foldl_append]
    exact payload_persist key l2 (l1.foldl payloadStep base) hnw

/-- Witness for C9: with two one-field items, the second POST still carries
the first item's field. -/
theorem c9_witness :
    (insertPayloads (Value.str "M") [[("X", Value.str "1")], [("Y", Value.str "2")]]).length = 2 ∧
    (insertPayloads (Value.str "M") [[("X", Value.str "1")], [("Y", Value.str "2")]]).getD 1 [] =
      (([[("X", Value.str "1")], [("Y", Value.str "2")]] : List Item).take 2).foldl payloadStep
        [("__metadata", Value.str "M")] ∧
    pyget ((([[("X", Value.str "1")]] : List Item) ++ [[("Y", Value.str "2")]]).foldl payloadStep
        [("__metadata", Value.str "M")]) "X" =
      pyget (([[("X", Value.str "1")]] : List Item).foldl payloadStep
        [("__metadata", Value.str "M")]) "X" :=
  c9_payload_accumulation (Value.str "M") [[("X", Value.str "1")], [("Y", Value.str "2")]] 1
    (by decide) [[("X", Value.str "1")]] [[("Y", Value.str "2")]]
    [("__metadata", Value.str "M")] "X"
    (by
      intro it hit v hv
      have h1 : it = [("Y", Value.str "2")] := by simpa using hit
      subst h1
      have h2 : ("X", v) = ("Y", Value.str "2") := by simpa using hv
      have h3 : ("X" : String) = "Y" := congrArg Prod.fst h2
      exact absurd h3 (by decide))

/-! ## C6: batch splitting -/

theorem sliceChunks_nil {α : Type} (k : Nat) : sliceChunks ([] : List α) (k + 1) = [] := by
  have h0 : k / (k + 1) = 0 := Nat.div_eq_of_lt (by omega)
  simp [sliceChunks, h0]

theorem ceil_div_succ (k n : Nat) (hn : 1 ≤ n) :
    (n + (k + 1) - 1) / (k + 1) = ((n - (k + 1)) + (k + 1) - 1) / (k + 1) + 1 := by
  have hL : n + (k + 1) - 1 = n + k := by omega
  rw [hL]
  rcases Nat.le_total n (k + 1) with h | h
  · have h2 : n - (k + 1) = 0 := by omega
    rw [h2]
    have h3 : (0 + (k + 1) - 1) / (k + 1) = 0 := by
      have h4 : 0 + (k + 1) - 1 = k := by omega
      rw [h4]
      exact Nat.div_eq_of_lt (by omega)
    rw [h3]
    exact Nat.div_eq_of_lt_le (by omega) (by omega)
  · have h4 : n - (k + 1) + (k + 1) - 1 = n - (k + 1) + k := by omega
    rw [h4]
    have h5 : n - (k + 1) + k + (k + 1) = n + k := by omega
    calc (n + k) / (k + 1)
        = (n - (k + 1) + k + (k + 1)) / (k + 1) := by rw [h5]
      _ = (n - (k + 1) + k) / (k + 1) + 1 := Nat.add_div_right _ (by omega)

theorem sliceChunks_cons {α : Type} (k : Nat) (x : α) (xs : List α) :
    sliceChunks (x :: xs) (k + 1) =
      ((x :: xs).take (k + 1)) :: sliceChunks ((x :: xs).drop (k + 1)) (k + 1) := by
  unfold sliceChunks
  have hdl : ((x :: xs).drop (k + 1)).length = xs.length + 1 - (k + 1) := by
    simp [List.length_drop]
  simp only [List.length_cons, hdl]
  rw [show (xs.length + 1 + (k + 1) - 1) / (k + 1)
      = ((xs.length + 1 - (k + 1)) + (k + 1) - 1) / (k + 1) + 1
      from ceil_div_succ k (xs.length + 1) (by omega)]
  rw [List.range_succ_eq_map, List.map_cons, List.map_map]
  congr 1
  · simp
  · refine List.map_congr_left ?_
    intro i _
    simp only [Function.comp, Nat.succ_eq_add_one, List.drop_drop]
    congr 2
    ring

theorem sliceChunks_eq_chunksRec {α : Type} (k : Nat) :
    ∀ (n : Nat) (l : List α), l.length ≤ n → sliceChunks l (k + 1) = chunksRec k l := by
  intro n
  induction n with
  | zero =>
      intro l hl
      have h0 : l = [] := List.eq_nil_of_length_eq_zero (by omega)
      subst h0
      rw [sliceChunks_nil]
      simp [chunksRec]
  | succ n ih =>
      intro l hl
      cases l with
      | nil =>
          rw [sliceChunks_nil]
          simp [chunksRec]
      | cons x xs =>
          rw [sliceChunks_cons, chunksRec]
          congr 1
          apply ih
          simp only [List.length_drop, List.length_cons] at hl ⊢
          omega

theorem chunksRec_flatten {α : Type} (k : Nat) :
    ∀ (n : Nat) (l : List α), l.length ≤ n → (chunksRec k l).flatten = l := by
  intro n
  induction n with
  | zero =>
      intro l hl
      have h0 : l = [] := List.eq_nil_of_length_eq_zero (by omega)
      subst h0
      simp [chunksRec]
  | succ n ih =>
      intro l hl
      cases l with
      | nil => simp [chunksRec]
      | cons x xs =>
          rw [chunksRec, List.flatten_cons,
            ih ((x :: xs).drop (k + 1))
              (by simp only [List.length_drop, List.length_cons] at hl ⊢; omega)]
          exact List.take_append_drop _ _

theorem not_post_of_head (l : List Char) (h : l.head? ≠ Option.some 'P') :
    "POST ".toList.isPrefixOf l = false := by
  cases l with
  | nil => rfl
  | cons c cs =>
      have hc : ¬ ('P' = c) := by
        intro hcc
        exact h (by simp [hcc.symm])
      show (['P', 'O', 'S', 'T', ' '] : List Char).isPrefixOf (c :: cs) = false
      simp [List.isPrefixOf, hc]

theorem not_post_append (a b : String) (c : Char) (cs : List Char)
    (ha : a.toList = c :: cs) (hc : c ≠ 'P') :
    "POST ".toList.isPrefixOf ((a ++ b).toList) = false := by
  apply not_post_of_head
  have h1 : (a ++ b).toList = a.toList ++ b.toList := rfl
  rw [h1, ha]
  simp
  exact fun h2 => hc h2

theorem post_of_append (b : String) :
    "POST ".toList.isPrefixOf (("POST " ++ b).toList) = true := by
  have h1 : ("POST " ++ b).toList = "POST ".toList ++ b.toList := rfl
  rw [h1, List.isPrefixOf_iff_prefix]
  exact List.prefix_append _ _

set_option maxRecDepth 4000 in
theorem countOps_createInsertBatch (siteUrl listName bg cg dtype : String)
    (insertList : List Item) :
    countOps (createInsertBatch siteUrl listName insertList bg cg dtype) =
      insertList.length := by
  unfold createInsertBatch countOps
  rw [List.filter_append, List.filter_append, List.length_append, List.length_append]
  have hhead : (List.filter (fun l => "POST ".toList.isPrefixOf l.toList)
      ["--batch_" ++ bg, "Content-Type: multipart/mixed; boundary=" ++ ("changeset_" ++ cg),
       ""]).length = 0 := by
    simp [List.filter, List.isPrefixOf]
  have htail : (List.filter (fun l => "POST ".toList.isPrefixOf l.toList)
      ["--" ++ ("changeset_" ++ cg ++ "--"), "--" ++ ("batch_" ++ bg ++ "--")]).length = 0 := by
    simp [List.filter, List.isPrefixOf]
  rw [hhead, htail]
  have hparts : ∀ l : List Item,
      (List.filter (fun ln => "POST ".toList.isPrefixOf ln.toList)
        ((l.map (fun item =>
          ["--" ++ ("changeset_" ++ cg),
           "Content-Type: application/http",
           "Content-Transfer-Encoding: binary",
           "",
           "POST " ++ (siteUrl ++ "_api/web/lists/getbytitle(" ++ sqt ++ listName ++ sqt ++
             ")/items HTTP/1.1"),
           renderBody dtype item,
           "Content-Type: application/json;odata=verbose",
           ""])).flatten)).length = l.length := by
    intro l
    induction l with
    | nil => rfl
    | cons it rest ih =>
        have hc5 : "POST ".toList.isPrefixOf
            (("POST " ++ (siteUrl ++ "_api/web/lists/getbytitle(" ++ sqt ++ listName ++ sqt ++
              ")/items HTTP/1.1")).toList) = true :=
          post_of_append _
        have hc6 : "POST ".toList.isPrefixOf ((renderBody dtype it).toList) = false := by
          unfold renderBody
          exact not_post_append "\x7b" _ '\x7b' [] rfl (by decide)
        simp only [List.map_cons, List.flatten_cons, List.filter_append, List.length_append, ih]
        have hfirst : (List.filter (fun ln => "POST ".toList.isPrefixOf ln.toList)
            ["--" ++ ("changeset_" ++ cg),
             "Content-Type: application/http",
             "Content-Transfer-Encoding: binary",
             "",
             "POST " ++ (siteUrl ++ "_api/web/lists/getbytitle(" ++ sqt ++ listName ++ sqt ++
               ")/items HTTP/1.1"),
             renderBody dtype it,
             "Content-Type: application/json;odata=verbose",
             ""]).length = 1 := by
          simp [List.filter, List.isPrefixOf, hc5, hc6]
        rw [hfirst]
        simp [List.length_cons]
        omega
  rw [hparts]
  omega

set_option maxRecDepth 8000 in
/-- C6: the batch submission functions split the operation sequence, in
order, into ceiling(n/k) consecutive slices of at most k operations each;
each built changeset carries exactly the operations of its slice, so no
changeset exceeds the batch size, and 250 operations at batch size 100 give
batch sizes 100, 100 and 50. -/
theorem c6_batching (items : List Item) (k : Nat) (hk : 0 < k)
    (siteUrl listName bg cg dtype : String) :
    (sliceChunks items k).length = (items.length + k - 1) / k ∧
    (∀ c ∈ sliceChunks items k, c.length ≤ k) ∧
    (sliceChunks items k).flatten = items ∧
    (∀ body ∈ insertBatchBodies siteUrl listName items k bg cg dtype, countOps body ≤ k) ∧
    ((sliceChunks (List.replicate 250 ([] : Item)) 100).map List.length = [100, 100, 50]) := by
  obtain ⟨k2, rfl⟩ : ∃ k2, k = k2 + 1 := ⟨k - 1, by omega⟩
  refine ⟨?_, ?_, ?_, ?_, ?_⟩
  · simp [sliceChunks]
  · intro c hc
    rcases List.mem_map.mp hc with ⟨i, _, rfl⟩
    simp only [List.length_take]
    omega
  · rw [sliceChunks_eq_chunksRec k2 items.length items le_rfl]
    exact chunksRec_flatten k2 items.length items le_rfl
  · intro body hb
    rcases List.mem_map.mp hb with ⟨chunk, hchunk, rfl⟩
    rw [countOps_createInsertBatch]
    rcases List.mem_map.mp hchunk with ⟨i, _, rfl⟩
    simp only [List.length_take]
    omega
  · rfl

/-- Witness for C6: three items at batch size 2 give two ordered slices that
reassemble to the input, and the one-slice batch body holds at most two
operations; the 250-at-100 scenario gives sizes 100, 100 and 50. -/
theorem c6_witness :
    (sliceChunks ([[("A", Value.int 1)], [("B", Value.int 2)], [("C", Value.int 3)]] :
      List Item) 2).length = 2 ∧
    (sliceChunks ([[("A", Value.int 1)], [("B", Value.int 2)], [("C", Value.int 3)]] :
      List Item) 2).flatten = [[("A", Value.int 1)], [("B", Value.int 2)], [("C", Value.int 3)]] ∧
    countOps (createInsertBatch "s/" "L" [[("A", Value.int 1)], [("B", Value.int 2)]]
      "bg" "cg" "DT") ≤ 2 ∧
    (sliceChunks (List.replicate 250 ([] : Item)) 100).map List.length = [100, 100, 50] :=
  have h := c6_batching [[("A", Value.int 1)], [("B", Value.int 2)], [("C", Value.int 3)]] 2
    (by decide) "s/" "L" "bg" "cg" "DT"
  ⟨h.1, h.2.2.1,
   h.2.2.2.1 (createInsertBatch "s/" "L" [[("A", Value.int 1)], [("B", Value.int 2)]]
     "bg" "cg" "DT")
     (List.mem_map_of_mem _ (by decide)),
   h.2.2.2.2⟩

/-! ## Lemmas about the diff engine -/

theorem valMem_iff (ks : List Value) (t : Value) : valMem ks t = true ↔ t ∈ ks := by
  simp only [valMem, List.any_eq_true, decide_eq_true_eq]
  constructor
  · rintro ⟨x, hx, rfl⟩
    exact hx
  · intro h
    exact ⟨t, h, rfl⟩

theorem listKeys_mem (pk : String) :
    ∀ (l : List Item) (ka : List Value), listKeys l pk = Except.ok ka →
      ∀ t : Value, (valMem ka t = true ↔ keyInSrc l pk t) := by
  intro l
  induction l with
  | nil =>
      intro ka h t
      simp only [listKeys] at h
      obtain rfl : ([] : List Value) = ka := by
        cases h
        rfl
      simp [valMem, keyInSrc]
  | cons it rest ih =>
      intro ka h t
      simp only [listKeys, bind, Except.bind] at h
      cases hpkv : pyget it pk with
      | none => rw [hpkv] at h; simp [ofOpt] at h
      | some t0 =>
          rw [hpkv] at h
          simp only [ofOpt] at h
          cases hrec : listKeys rest pk with
          | error e => rw [hrec] at h; simp at h
          | ok ts =>
              rw [hrec] at h
              have hka : ka = t0 :: ts := by
                cases h
                rfl
              subst hka
              have hih := ih ts hrec t
              constructor
              · intro hv
                rcases (valMem_iff (t0 :: ts) t).mp hv with h1
                rcases List.mem_cons.mp h1 with h2 | h2
                · exact ⟨it, List.mem_cons_self it rest, h2 ▸ hpkv⟩
                · rcases hih.mp ((valMem_iff ts t).mpr h2) with ⟨itA, hitA, hpk2⟩
                  exact ⟨itA, List.mem_cons_of_mem it hitA, hpk2⟩
              · rintro ⟨itA, hitA, hpk2⟩
                rcases List.mem_cons.mp hitA with h2 | h2
                · apply (valMem_iff (t0 :: ts) t).mpr
                  subst h2
                  rw [hpkv] at hpk2
                  exact List.mem_cons.mpr (Or.inl (Option.some.inj hpk2).symm)
                · apply (valMem_iff (t0 :: ts) t).mpr
                  exact List.mem_cons.mpr (Or.inr ((valMem_iff ts t).mp
                    (hih.mpr ⟨itA, h2, hpk2⟩)))

theorem listKeys_map (pk : String) :
    ∀ (l : List Item) (ka : List Value), listKeys l pk = Except.ok ka →
      l.map (fun it => pyget it pk) = ka.map Option.some := by
  intro l
  induction l with
  | nil =>
      intro ka h
      obtain rfl : ([] : List Value) = ka := by
        cases h
        rfl
      rfl
  | cons it rest ih =>
      intro ka h
      simp only [listKeys, bind, Except.bind] at h
      cases hpkv : pyget it pk with
      | none => rw [hpkv] at h; simp [ofOpt] at h
      | some t0 =>
          rw [hpkv] at h
          simp only [ofOpt] at h
          cases hrec : listKeys rest pk with
          | error e => rw [hrec] at h; simp at h
          | ok ts =>
              rw [hrec] at h
              have hka : ka = t0 :: ts := by
                cases h
                rfl
              subst hka
              simp [List.map_cons, hpkv, ih ts hrec]

theorem tombLoop_spec (cols : ColDict) (pk : String) (ka : List Value) :
    ∀ (b b2 ups : List Item) (evs : List DiffEvent),
      tombLoop cols pk ka b = Except.ok (b2, ups, evs) →
      (pk ≠ "Current Status" →
        b2.map (fun it => pyget it pk) = b.map (fun it => pyget it pk)) ∧
      (∀ e ∈ evs, ∃ t d, e = DiffEvent.close t d ∧ valMem ka t = false ∧
        (∃ it, it ∈ b ∧ pyget it pk = Option.some t) ∧ d ∈ ups) ∧
      (∀ it ∈ b, ∀ t, pyget it pk = Option.some t → valMem ka t = false →
        DiffEvent.close t
          (prepareData (pyset it "Current Status" (Value.str "Closed")) cols) ∈ evs ∧
        prepareData (pyset it "Current Status" (Value.str "Closed")) cols ∈ ups) := by
  intro b
  induction b with
  | nil =>
      intro b2 ups evs h
      simp only [tombLoop] at h
      cases h
      refine ⟨fun _ => rfl, by simp, by simp⟩
  | cons itemB rest ih =>
      intro b2 ups evs h
      simp only [tombLoop, bind, Except.bind] at h
      cases hpkv : pyget itemB pk with
      | none => rw [hpkv] at h; simp [ofOpt] at h
      | some t0 =>
          rw [hpkv] at h
          simp only [ofOpt] at h
          by_cases hvm : valMem ka t0 = true
          · rw [if_pos hvm] at h
            cases hrec : tombLoop cols pk ka rest with
            | error e => rw [hrec] at h; simp at h
            | ok triple =>
                obtain ⟨rest2, ups2, evs2⟩ := triple
                rw [hrec] at h
                cases h
                obtain ⟨ihm, ihs, ihc⟩ := ih rest2 ups2 evs2 hrec
                refine ⟨?_, ?_, ?_⟩
                · intro hpkne
                  simp [List.map_cons, ihm hpkne]
                · intro e he
                  rcases ihs e he with ⟨t, d, he2, hv2, ⟨it2, hit2, hp2⟩, hd2⟩
                  exact ⟨t, d, he2, hv2, ⟨it2, List.mem_cons_of_mem itemB hit2, hp2⟩, hd2⟩
                · intro it hit t hp hv
                  rcases List.mem_cons.mp hit with h2 | h2
                  · subst h2
                    rw [hpkv] at hp
                    rw [← Option.some.inj hp] at hv
                    exact absurd hvm (by simp [hv])
                  · exact ihc it h2 t hp hv
          · have hvm2 : valMem ka t0 = false := by
              cases h2 : valMem ka t0 with
              | false => rfl
              | true => exact absurd h2 hvm
            rw [if_neg (by simp [hvm2])] at h
            cases hrec : tombLoop cols pk ka rest with
            | error e => rw [hrec] at h; simp at h
            | ok triple =>
                obtain ⟨rest2, ups2, evs2⟩ := triple
                rw [hrec] at h
                cases h
                obtain ⟨ihm, ihs, ihc⟩ := ih rest2 ups2 evs2 hrec
                refine ⟨?_, ?_, ?_⟩
                · intro hpkne
                  have hsame : pyget (pyset itemB "Current Status" (Value.str "Closed")) pk =
                      pyget itemB pk := by
                    rw [pyget_pyset]
                    exact if_neg hpkne
                  simp [List.map_cons, ihm hpkne, hsame]
                · intro e he
                  rcases List.mem_cons.mp he with h2 | h2
                  · subst h2
                    exact ⟨t0,
                      prepareData (pyset itemB "Current Status" (Value.str "Closed")) cols,
                      rfl, hvm2, ⟨itemB, List.mem_cons_self itemB rest, hpkv⟩,
                      List.mem_cons_self _ _⟩
                  · rcases ihs e h2 with ⟨t, d, he2, hv2, ⟨it2, hit2, hp2⟩, hd2⟩
                    exact ⟨t, d, he2, hv2, ⟨it2, List.mem_cons_of_mem itemB hit2, hp2⟩,
                      List.mem_cons_of_mem _ hd2⟩
                · intro it hit t hp hv
                  rcases List.mem_cons.mp hit with h2 | h2
                  · subst h2
                    rw [hpkv] at hp
                    rw [← Option.some.inj hp]
                    exact ⟨List.mem_cons_self _ _, List.mem_cons_self _ _⟩
                  · rcases ihc it h2 t hp hv with ⟨hca, hcb⟩
                    exact ⟨List.mem_cons_of_mem _ hca, List.mem_cons_of_mem _ hcb⟩

theorem branchStep_spec (cols : ColDict) (pk : String) (keysB : List Value)
    (itemA : Item) (st st1 : DiffSt)
    (h : branchStep cols pk keysB itemA st = Except.ok st1) :
    st1.b = st.b ∧
    (∃ ups1, st1.updates = st.updates ++ ups1) ∧
    ∃ evs1, st1.events = st.events ++ evs1 ∧
      ∀ e ∈ evs1,
        (∃ t d, e = DiffEvent.ins t d ∧ pyget itemA pk = Option.some t ∧
          valMem keysB t = false) ∨
        (∃ t d, e = DiffEvent.upd t d ∧ pyget itemA pk = Option.some t ∧
          valMem keysB t = true) := by
  simp only [branchStep, bind, Except.bind] at h
  cases hel : eligibleItem itemA with
  | error e => rw [hel] at h; simp at h
  | ok el =>
      rw [hel] at h
      cases el with
      | false =>
          simp only [] at h
          rw [if_neg (by simp)] at h
          cases h
          exact ⟨rfl, ⟨[], by simp⟩, [], by simp, by simp⟩
      | true =>
          simp only [] at h
          rw [if_pos trivial] at h
          cases hget : pyget itemA pk with
          | none => rw [hget] at h; simp [ofOpt] at h
          | some title =>
              rw [hget] at h
              simp only [ofOpt] at h
              by_cases hvm : valMem keysB title = true
              · rw [if_neg (by simp [hvm])] at h
                cases hflagv : pyget (lookupBCur st.b keysB title) "Update Flag" with
                | none => rw [hflagv] at h; simp [ofOpt] at h
                | some fv =>
                    rw [hflagv] at h
                    simp only [ofOpt] at h
                    cases hstb : strToBool fv with
                    | error e => rw [hstb] at h; simp at h
                    | ok flag =>
                        rw [hstb] at h
                        cases flag with
                        | false =>
                            simp only [] at h
                            rw [if_neg (by simp)] at h
                            cases h
                            exact ⟨rfl, ⟨[], by simp⟩, [], by simp, by simp⟩
                        | true =>
                            simp only [] at h
                            rw [if_pos trivial] at h
                            cases hmva : pyget itemA "Modified" with
                            | none => rw [hmva] at h; simp [ofOpt] at h
                            | some mva =>
                                rw [hmva] at h
                                simp only [ofOpt] at h
                                cases hma : fromIso mva with
                                | error e => rw [hma] at h; simp at h
                                | ok ma =>
                                    rw [hma] at h
                                    simp only [] at h
                                    cases hmvb : pyget (lookupBCur st.b keysB title)
                                        "Modified" with
                                    | none => rw [hmvb] at h; simp [ofOpt] at h
                                    | some mvb =>
                                        rw [hmvb] at h
                                        simp only [ofOpt] at h
                                        cases hmb : fromIso mvb with
                                        | error e => rw [hmb] at h; simp at h
                                        | ok mb =>
                                            rw [hmb] at h
                                            simp only [] at h
                                            by_cases hcond : (chronoLt mb ma &&
                                                fieldsDiffer itemA
                                                  (lookupBCur st.b keysB title)) = true
                                            · rw [if_pos hcond] at h
                                              cases h
                                              refine ⟨rfl,
                                                ⟨[prepareData itemA cols], rfl⟩,
                                                [DiffEvent.upd title (prepareData itemA cols)],
                                                rfl, ?_⟩
                                              intro e he
                                              have he2 := List.mem_singleton.mp he
                                              subst he2
                                              right
                                              exact ⟨title, prepareData itemA cols, rfl,
                                                rfl, hvm⟩
                                            · rw [if_neg hcond] at h
                                              cases h
                                              exact ⟨rfl, ⟨[], by simp⟩, [], by simp, by simp⟩
              · have hvm2 : valMem keysB title = false := by
                  cases h2 : valMem keysB title with
                  | false => rfl
                  | true => exact absurd h2 hvm
                rw [if_pos (by simp [hvm2])] at h
                cases h
                refine ⟨rfl,
                  ⟨[], by simp⟩,
                  [DiffEvent.ins title
                    (pyUpdate (prepareData itemA cols)
                      (prepareData [("Update Flag", Value.str "True")] cols))],
                  rfl, ?_⟩
                intro e he
                have he2 := List.mem_singleton.mp he
                subst he2
                left
                exact ⟨title,
                  pyUpdate (prepareData itemA cols)
                    (prepareData [("Update Flag", Value.str "True")] cols),
                  rfl, rfl, hvm2⟩

theorem tombsStep_spec (cols : ColDict) (pk : String) (a : List Item)
    (st1 st2 : DiffSt)
    (h : tombsStep cols pk a st1 = Except.ok st2) :
    (st2 = st1 ∧ ¬ st1.inserts.length + st1.b.length > a.length) ∨
    ∃ ka b2 ups evs,
      st1.inserts.length + st1.b.length > a.length ∧
      listKeys a pk = Except.ok ka ∧
      tombLoop cols pk ka st1.b = Except.ok (b2, ups, evs) ∧
      st2 = DiffSt.mk st1.inserts (st1.updates ++ ups) b2 (st1.events ++ evs) := by
  unfold tombsStep at h
  by_cases hc : st1.inserts.length + st1.b.length > a.length
  · right
    rw [if_pos hc] at h
    simp only [bind, Except.bind] at h
    cases hka : listKeys a pk with
    | error e => rw [hka] at h; simp at h
    | ok ka =>
        rw [hka] at h
        simp only [] at h
        cases hrec : tombLoop cols pk ka st1.b with
        | error e => rw [hrec] at h; simp at h
        | ok triple =>
            obtain ⟨b2, ups, evs⟩ := triple
            rw [hrec] at h
            simp only [] at h
            cases h
            exact ⟨ka, b2, ups, evs, hc, rfl, hrec, rfl⟩
  · left
    rw [if_neg hc] at h
    cases h
    exact ⟨rfl, hc⟩

theorem processItem_decomp (cols : ColDict) (pk : String) (a : List Item)
    (keysB : List Value) (itemA : Item) (st stMid : DiffSt)
    (h : processItem cols pk a keysB itemA st = Except.ok stMid) :
    ∃ stB, branchStep cols pk keysB itemA st = Except.ok stB ∧
      tombsStep cols pk a stB = Except.ok stMid := by
  simp only [processItem, bind, Except.bind] at h
  cases hbs : branchStep cols pk keysB itemA st with
  | error e => rw [hbs] at h; simp at h
  | ok stB =>
      rw [hbs] at h
      simp only [] at h
      exact ⟨stB, rfl, h⟩

theorem processItem_mono (cols : ColDict) (pk : String) (a : List Item)
    (keysB : List Value) (itemA : Item) (st stMid : DiffSt)
    (h : processItem cols pk a keysB itemA st = Except.ok stMid) :
    (∀ e ∈ st.events, e ∈ stMid.events) ∧ (∀ u ∈ st.updates, u ∈ stMid.updates) := by
  obtain ⟨stB, hbs, hts⟩ := processItem_decomp cols pk a keysB itemA st stMid h
  obtain ⟨hbb, ⟨ups1, hup1⟩, evs1, hev1, hprop1⟩ := branchStep_spec cols pk keysB itemA st stB hbs
  rcases tombsStep_spec cols pk a stB stMid hts with ⟨rfl, _⟩ | ⟨ka, b2, ups, evs, _, _, _, rfl⟩
  · constructor
    · intro e he
      rw [hev1]
      exact List.mem_append_left _ he
    · intro u hu
      rw [hup1]
      exact List.mem_append_left _ hu
  · constructor
    · intro e he
      show e ∈ stB.events ++ evs
      exact List.mem_append_left _ (hev1 ▸ List.mem_append_left _ he)
    · intro u hu
      show u ∈ stB.updates ++ ups
      exact List.mem_append_left _ (hup1 ▸ List.mem_append_left _ hu)

theorem diffLoop_mono (cols : ColDict) (pk : String) (a : List Item)
    (keysB : List Value) :
    ∀ (todo : List Item) (st st2 : DiffSt),
      diffLoop cols pk a keysB todo st = Except.ok st2 →
      (∀ e ∈ st.events, e ∈ st2.events) ∧ (∀ u ∈ st.updates, u ∈ st2.updates) := by
  intro todo
  induction todo with
  | nil =>
      intro st st2 h
      simp only [diffLoop] at h
      cases h
      exact ⟨fun e he => he, fun u hu => hu⟩
  | cons itemA rest ih =>
      intro st st2 h
      simp only [diffLoop, bind, Except.bind] at h
      cases hpi : processItem cols pk a keysB itemA st with
      | error e => rw [hpi] at h; simp at h
      | ok stMid =>
          rw [hpi] at h
          simp only [] at h
          obtain ⟨h1, h2⟩ := processItem_mono cols pk a keysB itemA st stMid hpi
          obtain ⟨h3, h4⟩ := ih stMid st2 h
          exact ⟨fun e he => h3 e (h1 e he), fun u hu => h4 u (h2 u hu)⟩

theorem diffLoop_inv (cols : ColDict) (pk : String) (a : List Item)
    (keysB : List Value) (hpk : pk ≠ "Current Status") :
    ∀ (todo : List Item) (st st2 : DiffSt),
      diffLoop cols pk a keysB todo st = Except.ok st2 →
      (∀ itA ∈ todo, itA ∈ a) →
      st.b.map (fun it => pyget it pk) = keysB.map Option.some →
      (∀ e ∈ st.events, evInv a pk keysB e) →
      (∀ e ∈ st2.events, evInv a pk keysB e) ∧
      st2.b.map (fun it => pyget it pk) = keysB.map Option.some := by
  intro todo
  induction todo with
  | nil =>
      intro st st2 h hsub hb hev
      simp only [diffLoop] at h
      cases h
      exact ⟨hev, hb⟩
  | cons itemA rest ih =>
      intro st st2 h hsub hb hev
      simp only [diffLoop, bind, Except.bind] at h
      cases hpi : processItem cols pk a keysB itemA st with
      | error e => rw [hpi] at h; simp at h
      | ok stMid =>
          rw [hpi] at h
          simp only [] at h
          obtain ⟨stB, hbs, hts⟩ := processItem_decomp cols pk a keysB itemA st stMid hpi
          obtain ⟨hbb, ⟨ups1, hup1⟩, evs1, hev1, hprop1⟩ :=
            branchStep_spec cols pk keysB itemA st stB hbs
          have hbB : stB.b.map (fun it => pyget it pk) = keysB.map Option.some := by
            rw [hbb]
            exact hb
          have hevB : ∀ e ∈ stB.events, evInv a pk keysB e := by
            intro e he
            rw [hev1] at he
            rcases List.mem_append.mp he with h2 | h2
            · exact hev e h2
            · rcases hprop1 e h2 with ⟨t, d, rfl, hg, hv⟩ | ⟨t, d, rfl, hg, hv⟩
              · exact ⟨⟨itemA, hsub itemA (List.mem_cons_self _ _), hg⟩, hv⟩
              · exact ⟨⟨itemA, hsub itemA (List.mem_cons_self _ _), hg⟩, hv⟩
          rcases tombsStep_spec cols pk a stB stMid hts with
            ⟨rfl, _⟩ | ⟨ka, b2, ups, evs, _, hka, hrec, rfl⟩
          · exact ih _ st2 h (fun x hx => hsub x (List.mem_cons_of_mem _ hx)) hbB hevB
          · obtain ⟨hm, hs, _⟩ := tombLoop_spec cols pk ka stB.b b2 ups evs hrec
            have hb2 : b2.map (fun it => pyget it pk) = keysB.map Option.some := by
              rw [hm hpk]
              exact hbB
            have hev2 : ∀ e ∈ stB.events ++ evs, evInv a pk keysB e := by
              intro e he
              rcases List.mem_append.mp he with h2 | h2
              · exact hevB e h2
              · rcases hs e h2 with ⟨t, d, rfl, hvka, ⟨it2, hit2, hp2⟩, _⟩
                constructor
                · intro hks
                  have hgood := (listKeys_mem pk a ka hka t).mpr hks
                  rw [hvka] at hgood
                  exact Bool.noConfusion hgood
                · have hmem2 : Option.some t ∈ keysB.map Option.some := by
                    rw [← hbB]
                    exact hp2 ▸ List.mem_map_of_mem _ hit2
                  rcases List.mem_map.mp hmem2 with ⟨kb, hkb2, hkbeq⟩
                  have hkbt : kb = t := Option.some.inj hkbeq
                  exact (valMem_iff keysB t).mpr (hkbt ▸ hkb2)
            exact ih (DiffSt.mk stB.inserts (stB.updates ++ ups) b2 (stB.events ++ evs))
              st2 h (fun x hx => hsub x (List.mem_cons_of_mem _ hx)) hb2 hev2

/-! ## C1, C2, C3: claim theorems for the diff engine -/

/-- C3: the emission families of `get_list_diff` are pairwise disjoint by
primary-key value — no key value is both inserted and comparison-updated,
both inserted and closed, or both comparison-updated and closed. -/
theorem c3_diff_disjoint (a b : List Item) (cols : ColDict) (pk : String)
    (st : DiffSt) (t : Value)
    (hrun : getListDiffEv a b cols pk = Except.ok st)
    (hpk : pk ≠ "Current Status") :
    ¬ ((∃ d, DiffEvent.ins t d ∈ st.events) ∧ (∃ d, DiffEvent.upd t d ∈ st.events)) ∧
    ¬ ((∃ d, DiffEvent.ins t d ∈ st.events) ∧ (∃ d, DiffEvent.close t d ∈ st.events)) ∧
    ¬ ((∃ d, DiffEvent.upd t d ∈ st.events) ∧ (∃ d, DiffEvent.close t d ∈ st.events)) := by
  simp only [getListDiffEv, bind, Except.bind] at hrun
  cases hkb : listKeys b pk with
  | error e => rw [hkb] at hrun; simp at hrun
  | ok keysB =>
      rw [hkb] at hrun
      simp only [] at hrun
      have hbmap : b.map (fun it => pyget it pk) = keysB.map Option.some :=
        listKeys_map pk b keysB hkb
      obtain ⟨hev, _⟩ := diffLoop_inv cols pk a keysB hpk a (DiffSt.mk [] [] b []) st hrun
        (fun x hx => hx) hbmap (by intro e he; simp at he)
      refine ⟨?_, ?_, ?_⟩
      · rintro ⟨⟨d1, h1⟩, ⟨d2, h2⟩⟩
        have p1 := hev _ h1
        have p2 := hev _ h2
        simp only [evInv] at p1 p2
        rw [p1.2] at p2
        exact Bool.noConfusion p2.2
      · rintro ⟨⟨d1, h1⟩, ⟨d2, h2⟩⟩
        have p1 := hev _ h1
        have p2 := hev _ h2
        simp only [evInv] at p1 p2
        exact p2.1 p1.1
      · rintro ⟨⟨d1, h1⟩, ⟨d2, h2⟩⟩
        have p1 := hev _ h1
        have p2 := hev _ h2
        simp only [evInv] at p1 p2
        exact p2.1 p1.1

/-- Witness for C3 at a concrete run that emits a comparison update. -/
theorem c3_witness :
    ¬ ((∃ d, DiffEvent.ins (Value.str "A1") d ∈
        (DiffSt.mk ([] : List Item)
          [[("RID", Value.str "A1"), ("CN", Value.str "KPMG Global"), ("CS", Value.str "Open")]]
          [[("Requirement Id", Value.str "A1"), ("Update Flag", Value.str "True"),
            ("Modified", Value.str "2024-01-01T00:00:00"), ("Current Status", Value.str "Done")]]
          [DiffEvent.upd (Value.str "A1")
            [("RID", Value.str "A1"), ("CN", Value.str "KPMG Global"),
             ("CS", Value.str "Open")]]).events) ∧
      (∃ d, DiffEvent.upd (Value.str "A1") d ∈
        (DiffSt.mk ([] : List Item)
          [[("RID", Value.str "A1"), ("CN", Value.str "KPMG Global"), ("CS", Value.str "Open")]]
          [[("Requirement Id", Value.str "A1"), ("Update Flag", Value.str "True"),
            ("Modified", Value.str "2024-01-01T00:00:00"), ("Current Status", Value.str "Done")]]
          [DiffEvent.upd (Value.str "A1")
            [("RID", Value.str "A1"), ("CN", Value.str "KPMG Global"),
             ("CS", Value.str "Open")]]).events)) ∧
    ¬ ((∃ d, DiffEvent.ins (Value.str "A1") d ∈
        (DiffSt.mk ([] : List Item)
          [[("RID", Value.str "A1"), ("CN", Value.str "KPMG Global"), ("CS", Value.str "Open")]]
          [[("Requirement Id", Value.str "A1"), ("Update Flag", Value.str "True"),
            ("Modified", Value.str "2024-01-01T00:00:00"), ("Current Status", Value.str "Done")]]
          [DiffEvent.upd (Value.str "A1")
            [("RID", Value.str "A1"), ("CN", Value.str "KPMG Global"),
             ("CS", Value.str "Open")]]).events) ∧
      (∃ d, DiffEvent.close (Value.str "A1") d ∈
        (DiffSt.mk ([] : List Item)
          [[("RID", Value.str "A1"), ("CN", Value.str "KPMG Global"), ("CS", Value.str "Open")]]
          [[("Requirement Id", Value.str "A1"), ("Update Flag", Value.str "True"),
            ("Modified", Value.str "2024-01-01T00:00:00"), ("Current Status", Value.str "Done")]]
          [DiffEvent.upd (Value.str "A1")
            [("RID", Value.str "A1"), ("CN", Value.str "KPMG Global"),
             ("CS", Value.str "Open")]]).events)) ∧
    ¬ ((∃ d, DiffEvent.upd (Value.str "A1") d ∈
        (DiffSt.mk ([] : List Item)
          [[("RID", Value.str "A1"), ("CN", Value.str "KPMG Global"), ("CS", Value.str "Open")]]
          [[("Requirement Id", Value.str "A1"), ("Update Flag", Value.str "True"),
            ("Modified", Value.str "2024-01-01T00:00:00"), ("Current Status", Value.str "Done")]]
          [DiffEvent.upd (Value.str "A1")
            [("RID", Value.str "A1"), ("CN", Value.str "KPMG Global"),
             ("CS", Value.str "Open")]]).events) ∧
      (∃ d, DiffEvent.close (Value.str "A1") d ∈
        (DiffSt.mk ([] : List Item)
          [[("RID", Value.str "A1"), ("CN", Value.str "KPMG Global"), ("CS", Value.str "Open")]]
          [[("Requirement Id", Value.str "A1"), ("Update Flag", Value.str "True"),
            ("Modified", Value.str "2024-01-01T00:00:00"), ("Current Status", Value.str "Done")]]
          [DiffEvent.upd (Value.str "A1")
            [("RID", Value.str "A1"), ("CN", Value.str "KPMG Global"),
             ("CS", Value.str "Open")]]).events)) :=
  c3_diff_disjoint
    [[("Requirement Id", Value.str "A1"), ("Customer Name", Value.str "KPMG Global"),
      ("Modified", Value.str "2024-01-02T00:00:00"), ("Current Status", Value.str "Open")]]
    [[("Requirement Id", Value.str "A1"), ("Update Flag", Value.str "True"),
      ("Modified", Value.str "2024-01-01T00:00:00"), ("Current Status", Value.str "Done")]]
    [("Requirement Id", [("Internal Name", "RID"), ("Data Type", "Text")]),
     ("Customer Name", [("Internal Name", "CN"), ("Data Type", "Text")]),
     ("Current Status", [("Internal Name", "CS"), ("Data Type", "Text")]),
     ("Update Flag", [("Internal Name", "UF"), ("Data Type", "Text")])]
    "Requirement Id" _ (Value.str "A1") (by rfl) (by decide)

/-- C2 counterexample: with an empty source snapshot the loop over source
items never runs, so a destination item whose key is absent from the source
index gets no close Update at all — the claim fails for this snapshot
pair. -/
theorem c2_counterexample :
    getListDiff []
      [[("Requirement Id", Value.str "A1"), ("Update Flag", Value.str "True"),
        ("Modified", Value.str "2024-01-01T00:00:00"), ("Current Status", Value.str "Open")]]
      [("Requirement Id", [("Internal Name", "RID"), ("Data Type", "Text")]),
       ("Current Status", [("Internal Name", "CS"), ("Data Type", "Text")]),
       ("Update Flag", [("Internal Name", "UF"), ("Data Type", "Text")])]
      "Requirement Id" = Except.ok ([], []) := by
  rfl

/-- C2 (amended): whenever the run completes, the source is nonempty and the
destination is strictly larger — so the guard `len(inserts) + len(b) >
len(a)` holds from the first loop iteration — every destination item whose
key is absent from the source index is emitted as an Update that sets
Current Status to Closed (never a physical delete, which the function cannot
express); with an empty source, or when the guard never holds, no such
Update is emitted. -/
theorem c2_tombstone (a b : List Item) (cols : ColDict) (pk : String)
    (st : DiffSt) (itemB : Item) (kb : Value)
    (hrun : getListDiffEv a b cols pk = Except.ok st)
    (hane : a ≠ [])
    (hlen : a.length < b.length)
    (hmemB : itemB ∈ b)
    (hkb : pyget itemB pk = Option.some kb)
    (habs : ¬ keyInSrc a pk kb) :
    DiffEvent.close kb
      (prepareData (pyset itemB "Current Status" (Value.str "Closed")) cols) ∈ st.events ∧
    prepareData (pyset itemB "Current Status" (Value.str "Closed")) cols ∈ st.updates := by
  simp only [getListDiffEv, bind, Except.bind] at hrun
  cases hkbs : listKeys b pk with
  | error e => rw [hkbs] at hrun; simp at hrun
  | ok keysB =>
      rw [hkbs] at hrun
      simp only [] at hrun
      cases a with
      | nil => exact absurd rfl hane
      | cons a0 rest =>
          simp only [diffLoop, bind, Except.bind] at hrun
          cases hpi : processItem cols pk (a0 :: rest) keysB a0 (DiffSt.mk [] [] b []) with
          | error e => rw [hpi] at hrun; simp at hrun
          | ok stMid =>
              rw [hpi] at hrun
              simp only [] at hrun
              obtain ⟨stB, hbs, hts⟩ :=
                processItem_decomp cols pk (a0 :: rest) keysB a0 (DiffSt.mk [] [] b []) stMid hpi
              obtain ⟨hbb, ⟨ups1, hup1⟩, evs1, hev1, _⟩ :=
                branchStep_spec cols pk keysB a0 (DiffSt.mk [] [] b []) stB hbs
              have hbB : stB.b = b := hbb
              have hcond : stB.inserts.length + stB.b.length > (a0 :: rest).length := by
                rw [hbB]
                omega
              rcases tombsStep_spec cols pk (a0 :: rest) stB stMid hts with
                ⟨_, hnc⟩ | ⟨ka, b2, ups, evs, _, hka, hrec, hstmid⟩
              · exact absurd hcond hnc
              · obtain ⟨_, _, hcomp⟩ := tombLoop_spec cols pk ka stB.b b2 ups evs hrec
                have hvka : valMem ka kb = false := by
                  cases hv : valMem ka kb with
                  | false => rfl
                  | true =>
                      exact absurd ((listKeys_mem pk (a0 :: rest) ka hka kb).mp hv) habs
                have hmemB2 : itemB ∈ stB.b := by
                  rw [hbB]
                  exact hmemB
                obtain ⟨hclose, hupd⟩ := hcomp itemB hmemB2 kb hkb hvka
                have hevMid : DiffEvent.close kb
                    (prepareData (pyset itemB "Current Status" (Value.str "Closed")) cols)
                    ∈ stMid.events := by
                  rw [hstmid]
                  exact List.mem_append_right _ hclose
                have hupMid :
                    prepareData (pyset itemB "Current Status" (Value.str "Closed")) cols
                    ∈ stMid.updates := by
                  rw [hstmid]
                  exact List.mem_append_right _ hupd
                obtain ⟨hm1, hm2⟩ :=
                  diffLoop_mono cols pk (a0 :: rest) keysB rest stMid st hrun
                exact ⟨hm1 _ hevMid, hm2 _ hupMid⟩

/-- Witness for C2: a two-item destination against a one-item source closes
the destination item whose key disappeared. -/
theorem c2_witness :
    DiffEvent.close (Value.str "B7")
      (prepareData
        (pyset
          [("Requirement Id", Value.str "B7"), ("Update Flag", Value.str "True"),
           ("Modified", Value.str "2024-01-01T00:00:00"), ("Current Status", Value.str "Open")]
          "Current Status" (Value.str "Closed"))
        [("Requirement Id", [("Internal Name", "RID"), ("Data Type", "Text")]),
         ("Customer Name", [("Internal Name", "CN"), ("Data Type", "Text")]),
         ("Current Status", [("Internal Name", "CS"), ("Data Type", "Text")]),
         ("Update Flag", [("Internal Name", "UF"), ("Data Type", "Text")])]) ∈
      (DiffSt.mk ([] : List Item)
        [[("RID", Value.str "A1"), ("CN", Value.str "KPMG Global"), ("CS", Value.str "Open")],
         [("RID", Value.str "B7"), ("UF", Value.str "True"), ("CS", Value.str "Closed")]]
        [[("Requirement Id", Value.str "A1"), ("Update Flag", Value.str "True"),
          ("Modified", Value.str "2024-01-01T00:00:00"), ("Current Status", Value.str "Done")],
         [("Requirement Id", Value.str "B7"), ("Update Flag", Value.str "True"),
          ("Modified", Value.str "2024-01-01T00:00:00"), ("Current Status", Value.str "Closed")]]
        [DiffEvent.upd (Value.str "A1")
          [("RID", Value.str "A1"), ("CN", Value.str "KPMG Global"), ("CS", Value.str "Open")],
         DiffEvent.close (Value.str "B7")
          [("RID", Value.str "B7"), ("UF", Value.str "True"), ("CS", Value.str "Closed")]]).events ∧
    prepareData
      (pyset
        [("Requirement Id", Value.str "B7"), ("Update Flag", Value.str "True"),
         ("Modified", Value.str "2024-01-01T00:00:00"), ("Current Status", Value.str "Open")]
        "Current Status" (Value.str "Closed"))
      [("Requirement Id", [("Internal Name", "RID"), ("Data Type", "Text")]),
       ("Customer Name", [("Internal Name", "CN"), ("Data Type", "Text")]),
       ("Current Status", [("Internal Name", "CS"), ("Data Type", "Text")]),
       ("Update Flag", [("Internal Name", "UF"), ("Data Type", "Text")])] ∈
      (DiffSt.mk ([] : List Item)
        [[("RID", Value.str "A1"), ("CN", Value.str "KPMG Global"), ("CS", Value.str "Open")],
         [("RID", Value.str "B7"), ("UF", Value.str "True"), ("CS", Value.str "Closed")]]
        [[("Requirement Id", Value.str "A1"), ("Update Flag", Value.str "True"),
          ("Modified", Value.str "2024-01-01T00:00:00"), ("Current Status", Value.str "Done")],
         [("Requirement Id", Value.str "B7"), ("Update Flag", Value.str "True"),
          ("Modified", Value.str "2024-01-01T00:00:00"), ("Current Status", Value.str "Closed")]]
        [DiffEvent.upd (Value.str "A1")
          [("RID", Value.str "A1"), ("CN", Value.str "KPMG Global"), ("CS", Value.str "Open")],
         DiffEvent.close (Value.str "B7")
          [("RID", Value.str "B7"), ("UF", Value.str "True"), ("CS", Value.str "Closed")]]).updates :=
  c2_tombstone
    [[("Requirement Id", Value.str "A1"), ("Customer Name", Value.str "KPMG Global"),
      ("Modified", Value.str "2024-01-02T00:00:00"), ("Current Status", Value.str "Open")]]
    [[("Requirement Id", Value.str "A1"), ("Update Flag", Value.str "True"),
      ("Modified", Value.str "2024-01-01T00:00:00"), ("Current Status", Value.str "Done")],
     [("Requirement Id", Value.str "B7"), ("Update Flag", Value.str "True"),
      ("Modified", Value.str "2024-01-01T00:00:00"), ("Current Status", Value.str "Open")]]
    [("Requirement Id", [("Internal Name", "RID"), ("Data Type", "Text")]),
     ("Customer Name", [("Internal Name", "CN"), ("Data Type", "Text")]),
     ("Current Status", [("Internal Name", "CS"), ("Data Type", "Text")]),
     ("Update Flag", [("Internal Name", "UF"), ("Data Type", "Text")])]
    "Requirement Id" _
    [("Requirement Id", Value.str "B7"), ("Update Flag", Value.str "True"),
     ("Modified", Value.str "2024-01-01T00:00:00"), ("Current Status", Value.str "Open")]
    (Value.str "B7")
    (by rfl) (by decide) (by decide) (by decide) (by rfl)
    (by unfold keyInSrc; decide)

/-- C1 counterexample: a source item whose key is in the destination index,
whose destination counterpart's flag parses true, whose Modified is strictly
newer and whose Current Status differs, but whose Customer Name does not
contain kpmg: the claim demands an Update, yet the diff emits nothing — the
update comparison is additionally guarded by the sync-eligibility filter. -/
theorem c1_counterexample :
    getListDiff
      [[("Requirement Id", Value.str "A1"), ("Customer Name", Value.str "Acme"),
        ("Modified", Value.str "2024-01-02T00:00:00"), ("Current Status", Value.str "Open")]]
      [[("Requirement Id", Value.str "A1"), ("Update Flag", Value.str "True"),
        ("Modified", Value.str "2024-01-01T00:00:00"), ("Current Status", Value.str "Done")]]
      [("Requirement Id", [("Internal Name", "RID"), ("Data Type", "Text")]),
       ("Customer Name", [("Internal Name", "CN"), ("Data Type", "Text")]),
       ("Current Status", [("Internal Name", "CS"), ("Data Type", "Text")]),
       ("Update Flag", [("Internal Name", "UF"), ("Data Type", "Text")])]
      "Requirement Id" = Except.ok ([], []) ∧
    strToBool (Value.str "True") = Except.ok true ∧
    chronoLt "2024-01-01T00:00:00" "2024-01-02T00:00:00" = true ∧
    fieldsDiffer
      [("Requirement Id", Value.str "A1"), ("Customer Name", Value.str "Acme"),
       ("Modified", Value.str "2024-01-02T00:00:00"), ("Current Status", Value.str "Open")]
      [("Requirement Id", Value.str "A1"), ("Update Flag", Value.str "True"),
       ("Modified", Value.str "2024-01-01T00:00:00"), ("Current Status", Value.str "Done")]
      = true := by
  refine ⟨by rfl, by rfl, by rfl, by rfl⟩

/-- C1 (amended): for a source item that passes the sync-eligibility filter
(its Customer Name contains kpmg case-insensitively), whose key is in the
destination key set, whose destination counterpart's Update Flag parses true
and whose timestamps parse, the loop body emits a comparison Update for that
key if and only if the source Modified is strictly newer and at least one
source field other than Id and Modified differs from the destination's
value; in particular equal timestamps never produce an Update, and
non-eligible source items never reach the comparison at all. -/
theorem c1_update_emission (cols : ColDict) (pk : String) (a : List Item)
    (keysB : List Value) (itemA : Item) (st st2 : DiffSt)
    (title flagV mva mvb : Value) (ma mb : String)
    (hel : eligibleItem itemA = Except.ok true)
    (htitle : pyget itemA pk = Option.some title)
    (hmem : valMem keysB title = true)
    (hflagv : pyget (lookupBCur st.b keysB title) "Update Flag" = Option.some flagV)
    (hflag : strToBool flagV = Except.ok true)
    (hmva : pyget itemA "Modified" = Option.some mva)
    (hma : fromIso mva = Except.ok ma)
    (hmvb : pyget (lookupBCur st.b keysB title) "Modified" = Option.some mvb)
    (hmb : fromIso mvb = Except.ok mb)
    (hrun : processItem cols pk a keysB itemA st = Except.ok st2) :
    ∃ newEvs, st2.events = st.events ++ newEvs ∧
      ((∃ d, DiffEvent.upd title d ∈ newEvs) ↔
        (chronoLt mb ma = true ∧
         fieldsDiffer itemA (lookupBCur st.b keysB title) = true)) := by
  obtain ⟨stB, hbs, hts⟩ := processItem_decomp cols pk a keysB itemA st st2 hrun
  simp only [branchStep, bind, Except.bind, hel, ofOpt, htitle, hmem, hflagv, hflag,
    hmva, hma, hmvb, hmb, Bool.not_true] at hbs
  by_cases hcond :
      (chronoLt mb ma && fieldsDiffer itemA (lookupBCur st.b keysB title)) = true
  · rw [if_pos hcond] at hbs
    have hsplit := hcond
    rw [Bool.and_eq_true] at hsplit
    cases hbs
    rcases tombsStep_spec cols pk a _ st2 hts with
      ⟨rfl, _⟩ | ⟨ka, b2, ups, evs, _, hka, hrec, rfl⟩
    · refine ⟨[DiffEvent.upd title (prepareData itemA cols)], rfl, ?_⟩
      exact ⟨fun _ => hsplit,
        fun _ => ⟨prepareData itemA cols, List.mem_singleton.mpr rfl⟩⟩
    · refine ⟨[DiffEvent.upd title (prepareData itemA cols)] ++ evs, ?_, ?_⟩
      · show (st.events ++ [DiffEvent.upd title (prepareData itemA cols)]) ++ evs =
          st.events ++ ([DiffEvent.upd title (prepareData itemA cols)] ++ evs)
        rw [List.append_assoc]
      · exact ⟨fun _ => hsplit,
          fun _ => ⟨prepareData itemA cols,
            List.mem_append_left _ (List.mem_singleton.mpr rfl)⟩⟩
  · rw [if_neg hcond] at hbs
    cases hbs
    rcases tombsStep_spec cols pk a _ st2 hts with
      ⟨rfl, _⟩ | ⟨ka, b2, ups, evs, _, hka, hrec, rfl⟩
    · refine ⟨[], by simp, ?_⟩
      constructor
      · rintro ⟨d, hd⟩
        simp at hd
      · rintro ⟨h1, h2⟩
        rw [h1, h2] at hcond
        simp at hcond
    · obtain ⟨_, hs, _⟩ := tombLoop_spec cols pk ka _ b2 ups evs hrec
      refine ⟨evs, rfl, ?_⟩
      constructor
      · rintro ⟨d, hd⟩
        rcases hs _ hd with ⟨t2, d2, heq, _⟩
        exact DiffEvent.noConfusion heq
      · rintro ⟨h1, h2⟩
        rw [h1, h2] at hcond
        simp at hcond

/-- Witness for C1: an eligible source item one day newer with a differing
Current Status emits exactly one comparison Update for its key. -/
theorem c1_witness :
    ∃ newEvs,
      (DiffSt.mk ([] : List Item)
        [[("RID", Value.str "A1"), ("CN", Value.str "KPMG Global"), ("CS", Value.str "Open")]]
        [[("Requirement Id", Value.str "A1"), ("Update Flag", Value.str "True"),
          ("Modified", Value.str "2024-01-01T00:00:00"), ("Current Status", Value.str "Done")]]
        [DiffEvent.upd (Value.str "A1")
          [("RID", Value.str "A1"), ("CN", Value.str "KPMG Global"),
           ("CS", Value.str "Open")]]).events =
      (DiffSt.mk ([] : List Item) ([] : List Item)
        [[("Requirement Id", Value.str "A1"), ("Update Flag", Value.str "True"),
          ("Modified", Value.str "2024-01-01T00:00:00"), ("Current Status", Value.str "Done")]]
        ([] : List DiffEvent)).events ++ newEvs ∧
      ((∃ d, DiffEvent.upd (Value.str "A1") d ∈ newEvs) ↔
        (chronoLt "2024-01-01T00:00:00" "2024-01-02T00:00:00" = true ∧
         fieldsDiffer
           [("Requirement Id", Value.str "A1"), ("Customer Name", Value.str "KPMG Global"),
            ("Modified", Value.str "2024-01-02T00:00:00"), ("Current Status", Value.str "Open")]
           (lookupBCur
             [[("Requirement Id", Value.str "A1"), ("Update Flag", Value.str "True"),
               ("Modified", Value.str "2024-01-01T00:00:00"),
               ("Current Status", Value.str "Done")]]
             [Value.str "A1"] (Value.str "A1")) = true)) :=
  c1_update_emission
    [("Requirement Id", [("Internal Name", "RID"), ("Data Type", "Text")]),
     ("Customer Name", [("Internal Name", "CN"), ("Data Type", "Text")]),
     ("Current Status", [("Internal Name", "CS"), ("Data Type", "Text")]),
     ("Update Flag", [("Internal Name", "UF"), ("Data Type", "Text")])]
    "Requirement Id"
    [[("Requirement Id", Value.str "A1"), ("Customer Name", Value.str "KPMG Global"),
      ("Modified", Value.str "2024-01-02T00:00:00"), ("Current Status", Value.str "Open")]]
    [Value.str "A1"]
    [("Requirement Id", Value.str "A1"), ("Customer Name", Value.str "KPMG Global"),
     ("Modified", Value.str "2024-01-02T00:00:00"), ("Current Status", Value.str "Open")]
    (DiffSt.mk ([] : List Item) ([] : List Item)
      [[("Requirement Id", Value.str "A1"), ("Update Flag", Value.str "True"),
        ("Modified", Value.str "2024-01-01T00:00:00"), ("Current Status", Value.str "Done")]]
      ([] : List DiffEvent))
    _
    (Value.str "A1") (Value.str "True")
    (Value.str "2024-01-02T00:00:00") (Value.str "2024-01-01T00:00:00")
    "2024-01-02T00:00:00" "2024-01-01T00:00:00"
    (by rfl) (by rfl) (by rfl) (by rfl) (by rfl) (by rfl) (by rfl) (by rfl) (by rfl)
    (by rfl)
